import Mathlib

/-!
Verification of the yodsl expression-lowering engine.

Shallow embedding of the repository's core:
  * `engine/transpile.py` — the Yovec → YOLOL transpiler (`transpile_yovec`,
    `_rename_exports`, `_transpile_import` / `_transpile_export` /
    `_transpile_vec_let`, `_transpile_vexpr`, `_transpile_nexpr`);
  * `engine/yovec/transpile.py` — the earlier draft transpiler (`transpile`
    and its helpers);
  * `engine/env.py` — the `Env` class (`var`, `set_num`, `set_vec`,
    `set_mat`, `alias`, `set_alias`);
  * `engine/optimize/mangle.py` — the `Pool` class and `mangle_names`.

Parts of the repository that these modules import are not present under
`src/` (`engine/node.py`, `engine/number.py`, `engine/vector.py`,
`engine/matrix.py`, `engine/errors.py`, and the earlier revision of
`engine/env.py` whose instances are built with `Env(overwrite=False)` and
used through `update` / item access).  Those are modelled from the spec and
are marked `Modelled from the spec:` in their doc comments.  Everything
else is translated directly from the Python sources.
-/

set_option maxHeartbeats 1000000

/-- Syntax tree node (`engine/node.py`).  Modelled from the spec: a node
carries a `kind` tag, an optional literal `value`, and either no child list
(a leaf, Python `children = None`) or a complete ordered child list. -/
inductive Node where
  | mk (kind : String) (value : Option String) (children : Option (List Node))

/-- Tag of a node (`node.kind`). -/
def Node.kind : Node → String
  | .mk k _ _ => k

/-- Literal payload of a node (`node.value`; `none` models Python `None`). -/
def Node.value : Node → Option String
  | .mk _ v _ => v

/-- Child list of a node (`node.children`; `none` models Python `None`). -/
def Node.children : Node → Option (List Node)
  | .mk _ _ c => c

/-- Errors surfaced by the embedded code.  `yovec` is the structured
user-facing `YovecError` of `engine/errors.py` (modelled from the spec:
a single error type carrying a message); the remaining constructors model
the Python runtime errors the sources can raise (`AssertionError`,
`NameError`, `KeyError`, `TypeError`, `IndexError`, `ValueError`). -/
inductive Err where
  | yovec (msg : String)
  | assertionError (msg : String)
  | nameError (missingName : String)
  | keyError
  | typeError
  | indexError
  | valueError (msg : String)
deriving DecidableEq

/-- Decimal digit character, as produced by Python `'{}'.format` on a
non-negative integer. -/
def digitChar : Nat → Char
  | 0 => '0' | 1 => '1' | 2 => '2' | 3 => '3' | 4 => '4'
  | 5 => '5' | 6 => '6' | 7 => '7' | 8 => '8' | _ => '9'

/-- Accumulator pass for `natDigits`; the fuel argument only bounds the
recursion depth (dividing by ten strictly shrinks the number, so `n + 1`
steps always suffice). -/
def natDigitsAux : Nat → Nat → List Char → List Char
  | 0, _, acc => acc
  | fuel + 1, n, acc =>
    if n < 10 then digitChar n :: acc
    else natDigitsAux fuel (n / 10) (digitChar (n % 10) :: acc)

/-- Decimal digits of a natural number, most significant first
(Python `'{}'.format(n)`). -/
def natDigits (n : Nat) : List Char :=
  natDigitsAux (n + 1) n []

/-- Decimal string of a natural number. -/
def natStr (n : Nat) : String :=
  String.mk (natDigits n)

/-- Register prefix `'v{}e'.format(index)` used by `_rename_exports`. -/
def regPre (index : Nat) : String :=
  String.mk ('v' :: (natDigits index ++ ['e']))

/-- Scalar slot name `'v{}e{}'.format(index, elem)` used by the `assign`
realization (spec §4.2: naming scheme `v{index}e{element}`). -/
def regName (index elem : Nat) : String :=
  String.mk ('v' :: (natDigits index ++ 'e' :: natDigits elem))

/-- Python `s.startswith(pre)`. -/
def pyStartsWith (s pre : String) : Bool :=
  pre.data.isPrefixOf s.data

/-- Scan for Python `str.replace`: replaces every non-overlapping occurrence
of `old` left to right.  The fuel argument only bounds the recursion depth;
each step consumes at least one character, so the scanned string's length
always suffices.  (At every call site in the sources `old` is a register
prefix and hence non-empty.) -/
def pyReplaceAux (old new : List Char) : Nat → List Char → List Char
  | 0, s => s
  | _ + 1, [] => []
  | fuel + 1, c :: cs =>
    if old.isPrefixOf (c :: cs) then new ++ pyReplaceAux old new fuel ((c :: cs).drop old.length)
    else c :: pyReplaceAux old new fuel cs

/-- Python `s.replace(old, new)`. -/
def pyReplace (s old new : String) : String :=
  String.mk (pyReplaceAux old.data new.data s.data.length s.data)

/-- Value of a decimal digit character, `none` for any other character. -/
def digitVal? (c : Char) : Option Nat :=
  if 48 ≤ c.toNat && c.toNat ≤ 57 then some (c.toNat - 48) else none

/-- Accumulating decimal parse. -/
def parseDigitsAux : List Char → Nat → Option Nat
  | [], acc => some acc
  | c :: cs, acc =>
    match digitVal? c with
    | some d => parseDigitsAux cs (acc * 10 + d)
    | none => none

/-- Parse of a non-empty all-digit character list. -/
def parseDigits : List Char → Option Nat
  | [] => none
  | l => parseDigitsAux l 0

/-- Python `int(text)` on literal text: an optional sign followed by decimal
digits.  (Python also accepts surrounding whitespace and underscore
separators; the parser of the source language produces neither.) -/
def pyInt? (s : String) : Option Int :=
  match s.data with
  | '-' :: rest => (parseDigits rest).map (fun n => -(n : Int))
  | '+' :: rest => (parseDigits rest).map (fun n => (n : Int))
  | l => (parseDigits l).map (fun n => (n : Int))

/-- Numeric literal carried by a `SimpleNumber`.  Modelled from the spec:
`engine/number.py` is not under `src/`; `_transpile_nexpr` builds the
literal with Python `int(text)` and falls back to `float(text)`, so the
model keeps either the parsed integer or the raw float text (float
arithmetic is never performed by the lowering engine). -/
inductive NumLit where
  | intL (n : Int)
  | floatL (raw : String)

/-- Symbolic scalar expression (`SimpleNumber` of `engine/number.py`).
Modelled from the spec: a lazy expression tree over literals, externals and
read-backs of already-assigned register slots, with `unary` / `binary`
combinators (spec §4.3); `sn.unary op` and `lsn.binary op rsn` build a new
tree node wrapping the operand trees. -/
inductive SimpleNumber where
  | num (v : NumLit)
  | external (name : String)
  | readVar (name : String)
  | unary (op : String) (n : SimpleNumber)
  | binary (op : String) (l r : SimpleNumber)

/-- Flattening of a symbolic scalar into an output syntax tree.  Modelled
from the spec: literals become `number` leaves, externals and read-backs
become `variable` leaves, operators become internal nodes over their
flattened operands. -/
def SimpleNumber.toNode : SimpleNumber → Node
  | .num (.intL n) => .mk "number" (some (toString n)) none
  | .num (.floatL raw) => .mk "number" (some raw) none
  | .external name => .mk "variable" (some name) none
  | .readVar name => .mk "variable" (some name) none
  | .unary op n => .mk op none (some [n.toNode])
  | .binary op l r => .mk op none (some [l.toNode, r.toNode])

/-- Symbolic vector (`SimpleVector` of `engine/vector.py`).  Modelled from
the spec: an ordered sequence of element-wise symbolic scalars. -/
structure SimpleVector where
  snums : List SimpleNumber

/-- Modelled from the spec: `map(op)` applies a unary numeric op to every
element. -/
def SimpleVector.map (sv : SimpleVector) (op : String) : SimpleVector :=
  ⟨sv.snums.map (SimpleNumber.unary op)⟩

/-- Modelled from the spec: `premap(op, sn)` broadcasts the scalar as the
left operand of `op` against every element. -/
def SimpleVector.premap (sv : SimpleVector) (op : String) (sn : SimpleNumber) : SimpleVector :=
  ⟨sv.snums.map (fun e => SimpleNumber.binary op sn e)⟩

/-- Modelled from the spec: `postmap(sn, op)` broadcasts the scalar as the
right operand of `op` against every element. -/
def SimpleVector.postmap (sv : SimpleVector) (sn : SimpleNumber) (op : String) : SimpleVector :=
  ⟨sv.snums.map (fun e => SimpleNumber.binary op e sn)⟩

/-- Modelled from the spec: `vecunary(op)` applies a numeric unary op to
every element, producing a new same-length vector. -/
def SimpleVector.vecunary (sv : SimpleVector) (op : String) : SimpleVector :=
  ⟨sv.snums.map (SimpleNumber.unary op)⟩

/-- Modelled from the spec: `concat(other)` appends the other vector's
element sequence. -/
def SimpleVector.concat (sv other : SimpleVector) : SimpleVector :=
  ⟨sv.snums ++ other.snums⟩

/-- Modelled from the spec: `vecbinary(op, rhs)` pairs elements positionally
and requires equal lengths (`ShapeMismatch` otherwise). -/
def SimpleVector.vecbinary (sv : SimpleVector) (op : String) (rhs : SimpleVector) :
    Except Err SimpleVector :=
  if sv.snums.length = rhs.snums.length then
    .ok ⟨List.zipWith (fun a b => SimpleNumber.binary op a b) sv.snums rhs.snums⟩
  else .error (.yovec "ShapeMismatch")

/-- Modelled from the spec: `reduce(op)` left-folds a binary numeric op
across all elements in order; fails with `EmptyReduce` on a zero-length
vector. -/
def SimpleVector.reduce (sv : SimpleVector) (op : String) : Except Err SimpleNumber :=
  match sv.snums with
  | [] => .error (.yovec "EmptyReduce")
  | h :: t => .ok (t.foldl (fun acc e => SimpleNumber.binary op acc e) h)

/-- Modelled from the spec: `dot(other)` is the element-wise product
followed by reduce-sum; requires equal length. -/
def SimpleVector.dot (sv other : SimpleVector) : Except Err SimpleNumber :=
  if sv.snums.length = other.snums.length then
    SimpleVector.reduce ⟨List.zipWith (fun a b => SimpleNumber.binary "mul" a b) sv.snums other.snums⟩ "add"
  else .error (.yovec "ShapeMismatch")

/-- Modelled from the spec: `len()` yields the element count as a
compile-time-known literal. -/
def SimpleVector.len (sv : SimpleVector) : SimpleNumber :=
  .num (.intL sv.snums.length)

/-- Modelled from the spec: `assign(index)` flattens the accumulated
element trees into one concrete assignment statement per element, in
ascending element order, addressed `v{index}e{0..n-1}`, and returns the
statements together with the residual read-back vector. -/
def SimpleVector.assign (sv : SimpleVector) (index : Nat) : List Node × SimpleVector :=
  (sv.snums.enum.map (fun p =>
      Node.mk "assignment" none
        (some [Node.mk "variable" (some (regName index p.1)) none, p.2.toNode])),
   ⟨sv.snums.enum.map (fun p => SimpleNumber.readVar (regName index p.1))⟩)

/-- Value stored in the transpiler's environment.  Modelled from the spec
and `transpile_yovec`'s doc string: `variable -> (index, SimpleVector)`,
`external -> True`, `exported -> True`. -/
inductive TVal where
  | vecBind (index : Nat) (sv : SimpleVector)
  | mark

/-- Environment used by `transpile_yovec` and the draft `transpile`.
Modelled from the spec: the `Env` revision those modules build with
`Env(overwrite=False)` (offering `update` and item access) is not under
`src/`; the spec describes an immutable, persistent identifier map whose
extension rejects redefinition.  Entries keep dict insertion order. -/
structure TEnv where
  entries : List (String × TVal)

/-- Modelled from the spec: item access `env[ident]`. -/
def TEnv.lookup (env : TEnv) (ident : String) : Option TVal :=
  env.entries.lookup ident

/-- Modelled from the spec: `env.update(ident, value)` returns an extended
environment and raises `KeyError` if `ident` is already bound
(`overwrite=False`). -/
def TEnv.update (env : TEnv) (ident : String) (v : TVal) : Except Err TEnv :=
  if (env.entries.lookup ident).isSome then .error .keyError
  else .ok ⟨env.entries ++ [(ident, v)]⟩

/-- Empty environment, `Env(overwrite=False)`. -/
def TEnv.empty : TEnv := ⟨[]⟩

/-- Identifier reached through `node.children[0].children[0].value`
(used by `_transpile_import`, `_transpile_export`, `_transpile_vec_let`).
Shape violations model the Python `IndexError` on a missing child; an
identifier leaf with no literal payload is reported as `typeError`
(the parser contract of spec §6 guarantees identifier leaves carry their
name, so neither is reachable from parser output). -/
def Node.ident2 : Node → Except Err String
  | .mk _ _ (some (c :: _)) =>
    match c with
    | .mk _ _ (some (g :: _)) =>
      match g.value with
      | some v => .ok v
      | none => .error .typeError
    | _ => .error .indexError
  | _ => .error .indexError

/-- Identifier reached through `node.children[0].value`
(used by the `variable` branches of `_transpile_vexpr`). -/
def Node.ident1 : Node → Except Err String
  | .mk _ _ (some (c :: _)) =>
    match c.value with
    | some v => .ok v
    | none => .error .typeError
  | _ => .error .indexError

/-- Reserved key prefix for export markers (`EXPORT_PREFIX`). -/
def EXPORT_PREFIX : String := "#exported:"

mutual

/-- Shallow embedding of `_transpile_vexpr` (engine/transpile.py):
dispatch on the expression node's kind, threading the environment.
An unrecognized kind raises `AssertionError('unknown kind for vexpr: ...')`.
Per-kind shape fallbacks model the Python `IndexError` / `TypeError` on
malformed child lists (unreachable from parser output). -/
def transpileVexpr (env : TEnv) (vexpr : Node) : Except Err (TEnv × SimpleVector) :=
  match vexpr with
  | .mk "vec_map" _ (some (op :: e :: _)) => do
      let (env, sv) ← transpileVexpr env e
      .ok (env, sv.map op.kind)
  | .mk "vec_map" _ _ => .error .indexError
  | .mk "vec_premap" _ (some (op :: n :: v :: _)) => do
      let (env, sn) ← transpileNexpr env n
      let (env, sv) ← transpileVexpr env v
      .ok (env, sv.premap op.kind sn)
  | .mk "vec_premap" _ _ => .error .indexError
  | .mk "vec_postmap" _ (some (n :: op :: v :: _)) => do
      let (env, sn) ← transpileNexpr env n
      let (env, sv) ← transpileVexpr env v
      .ok (env, sv.postmap sn op.kind)
  | .mk "vec_postmap" _ _ => .error .indexError
  | .mk "concat" _ (some (c0 :: rest)) => do
      let (env, lsv) ← transpileVexpr env c0
      transpileConcatList env lsv rest
  | .mk "concat" _ _ => .error .indexError
  | .mk "vec_unary" _ (some cs) => transpileVecUnaryList env cs
  | .mk "vec_unary" _ none => .error .indexError
  | .mk "vec_binary" _ (some (c0 :: rest)) => do
      let (env, lsv) ← transpileVexpr env c0
      transpileVecBinList env lsv rest
  | .mk "vec_binary" _ _ => .error .indexError
  | .mk "variable" _ (some (c0 :: _)) =>
      (match c0.value with
      | some ident =>
        match env.lookup ident with
        | none => .error .keyError
        | some .mark => .error .typeError
        | some (.vecBind _ sv) => .ok (env, sv)
      | none => .error .typeError)
  | .mk "variable" _ _ => .error .indexError
  | .mk "vector" _ (some cs) => do
      let (env, sns) ← transpileVecElems env cs
      .ok (env, ⟨sns⟩)
  | .mk "vector" _ none => .error .typeError
  | .mk k _ _ => .error (.assertionError ("unknown kind for vexpr: " ++ k))

/-- Loop of the `concat` branch: `for rsv in vexpr.children[1:]`. -/
def transpileConcatList (env : TEnv) (lsv : SimpleVector) (l : List Node) :
    Except Err (TEnv × SimpleVector) :=
  match l with
  | [] => .ok (env, lsv)
  | r :: rest => do
      let (env, rsv) ← transpileVexpr env r
      transpileConcatList env (lsv.concat rsv) rest

/-- Loop of the `vec_unary` branch: the operand is `children[-1]` and the
ops `children[:-1]` are applied in reversed order (innermost first), so the
first-listed op ends up outermost. -/
def transpileVecUnaryList (env : TEnv) (l : List Node) : Except Err (TEnv × SimpleVector) :=
  match l with
  | [] => .error .indexError
  | [e] => transpileVexpr env e
  | op :: rest => do
      let (env, sv) ← transpileVecUnaryList env rest
      .ok (env, sv.vecunary op.kind)

/-- Loop of the `vec_binary` branch: `zip(children[1::2], children[2::2])`
pairs an op with its right operand; a trailing unpaired op is dropped by
`zip`. -/
def transpileVecBinList (env : TEnv) (lsv : SimpleVector) (l : List Node) :
    Except Err (TEnv × SimpleVector) :=
  match l with
  | op :: rsv :: rest => do
      let (env, r) ← transpileVexpr env rsv
      let lsv ← lsv.vecbinary op.kind r
      transpileVecBinList env lsv rest
  | _ => .ok (env, lsv)

/-- Loop of the `vector` branch: transpile each element in order. -/
def transpileVecElems (env : TEnv) (l : List Node) : Except Err (TEnv × List SimpleNumber) :=
  match l with
  | [] => .ok (env, [])
  | n :: rest => do
      let (env, sn) ← transpileNexpr env n
      let (env, sns) ← transpileVecElems env rest
      .ok (env, sn :: sns)

/-- Shallow embedding of `_transpile_nexpr` (engine/transpile.py).  The
fallback branch of the source is
`raise AssertionError('unknown kind for nexpr: {}'.format(vexpr.kind))`:
the name `vexpr` is not defined in `_transpile_nexpr`, so evaluating the
message raises `NameError: name 'vexpr' is not defined` before the
`AssertionError` is constructed — the model returns that `NameError`. -/
def transpileNexpr (env : TEnv) (nexpr : Node) : Except Err (TEnv × SimpleNumber) :=
  match nexpr with
  | .mk "num_unary" _ (some cs) => transpileNumUnaryList env cs
  | .mk "num_unary" _ none => .error .indexError
  | .mk "num_binary" _ (some (c0 :: rest)) => do
      let (env, lsn) ← transpileNexpr env c0
      transpileNumBinList env lsn rest
  | .mk "num_binary" _ _ => .error .indexError
  | .mk "reduce" _ (some (op :: v :: _)) => do
      let (env, sv) ← transpileVexpr env v
      let sn ← sv.reduce op.kind
      .ok (env, sn)
  | .mk "reduce" _ _ => .error .indexError
  | .mk "dot" _ (some (a :: b :: _)) => do
      let (env, lsv) ← transpileVexpr env a
      let (env, rsv) ← transpileVexpr env b
      let sn ← lsv.dot rsv
      .ok (env, sn)
  | .mk "dot" _ _ => .error .indexError
  | .mk "len" _ (some (a :: _)) => do
      let (env, sv) ← transpileVexpr env a
      .ok (env, sv.len)
  | .mk "len" _ _ => .error .indexError
  | .mk "external" _ (some (c0 :: _)) =>
      (match c0.value with
      | some v => .ok (env, .external v)
      | none => .error .typeError)
  | .mk "external" _ _ => .error .indexError
  | .mk "number" _ (some (c0 :: _)) =>
      (match c0.value with
      | some v =>
        -- `int(text)` with a `float(text)` fallback; the parser contract
        -- guarantees numeric literal text, so the float fallback keeps the
        -- raw text (see `NumLit`).
        match pyInt? v with
        | some n => .ok (env, .num (.intL n))
        | none => .ok (env, .num (.floatL v))
      | none => .error .typeError)
  | .mk "number" _ _ => .error .indexError
  | .mk _ _ _ => .error (.nameError "vexpr")

/-- Loop of the `num_unary` branch, mirroring `transpileVecUnaryList`. -/
def transpileNumUnaryList (env : TEnv) (l : List Node) : Except Err (TEnv × SimpleNumber) :=
  match l with
  | [] => .error .indexError
  | [e] => transpileNexpr env e
  | op :: rest => do
      let (env, sn) ← transpileNumUnaryList env rest
      .ok (env, sn.unary op.kind)

/-- Loop of the `num_binary` branch, mirroring `transpileVecBinList`. -/
def transpileNumBinList (env : TEnv) (lsn : SimpleNumber) (l : List Node) :
    Except Err (TEnv × SimpleNumber) :=
  match l with
  | op :: rsn :: rest => do
      let (env, r) ← transpileNexpr env rsn
      transpileNumBinList env (lsn.binary op.kind r) rest
  | _ => .ok (env, lsn)

end

/-- Shallow embedding of `_transpile_import`: bind the imported identifier
to the `True` marker; a `KeyError` from `update` becomes
`YovecError('failed to import variable')`. -/
def transpileImport (env : TEnv) (importNode : Node) : Except Err TEnv := do
  let ident ← importNode.ident2
  match env.update ident .mark with
  | .ok env => .ok env
  | .error _ => .error (.yovec "failed to import variable")

/-- Shallow embedding of `_transpile_export`: require the exported-from
name to be bound, record the `#exported:`-prefixed marker, and return the
`(before, after)` pair. -/
def transpileExport (env : TEnv) (exportNode : Node) :
    Except Err (TEnv × (String × String)) :=
  match exportNode with
  | .mk _ _ (some (c0 :: c1 :: _)) => do
    let before ← c0.ident1
    let after ← c1.ident1
    match env.lookup before with
    | none => .error (.yovec ("failed to export variable: variable not found: " ++ before))
    | some _ =>
      match env.update (EXPORT_PREFIX ++ before) .mark with
      | .ok env => .ok (env, (before, after))
      | .error _ => .error (.yovec "failed to export variable")
  | _ => .error .indexError

/-- Shallow embedding of `_transpile_vec_let`: lower the expression, call
`assign` at the current register index, bind the residual vector at that
index, and emit one output line wrapping one `multi` block; the returned
index is incremented by exactly one. -/
def transpileVecLet (env : TEnv) (index : Nat) (letNode : Node) :
    Except Err (TEnv × Nat × Node) :=
  match letNode with
  | .mk _ _ (some (c0 :: c1 :: _)) => do
    let ident ← c0.ident1
    let (env, sv) ← transpileVexpr env c1
    let (assignments, sv) := sv.assign index
    match env.update ident (.vecBind index sv) with
    | .error _ => .error (.yovec "failed to assign variable")
    | .ok env =>
      let multi := Node.mk "multi" none (some assignments)
      let line := Node.mk "line" none (some [multi])
      .ok (env, index + 1, line)
  | _ => .error .indexError

/-- Statement of a program line: `child = line.children[0]`. -/
def stmtOfLine (line : Node) : Except Err Node :=
  match line.children with
  | some (c :: _) => .ok c
  | some [] => .error .indexError
  | none => .error .typeError

/-- Statement loop of `transpile_yovec`: dispatch each line's statement on
its kind, threading `(env, index)` and accumulating the emitted output
lines and the export pairs in order.  A statement of unknown kind raises
`AssertionError('unknown kind for child: ...')`. -/
def transpileStmts (env : TEnv) (index : Nat) :
    List Node → Except Err (TEnv × Nat × List Node × List (String × String))
  | [] => .ok (env, index, [], [])
  | line :: rest => do
    let child ← stmtOfLine line
    if child.kind == "import" then do
      let env ← transpileImport env child
      transpileStmts env index rest
    else if child.kind == "export" then do
      let (env, pr) ← transpileExport env child
      let (env, index, lines, exported) ← transpileStmts env index rest
      .ok (env, index, lines, pr :: exported)
    else if child.kind == "vec_let" then do
      let (env, index, outLine) ← transpileVecLet env index child
      let (env, index, lines, exported) ← transpileStmts env index rest
      .ok (env, index, outLine :: lines, exported)
    else if child.kind == "comment" then
      transpileStmts env index rest
    else
      .error (.assertionError ("unknown kind for child: " ++ child.kind))

/-- Register index of an export's before-name: `env[before][0]` as evaluated
by `_rename_exports`.  A missing binding raises `KeyError`; an import or
export marker (`True`) is not subscriptable and raises `TypeError`. -/
def envRegIndex (env : TEnv) (before : String) : Except Err Nat :=
  match env.lookup before with
  | none => .error .keyError
  | some .mark => .error .typeError
  | some (.vecBind i _) => .ok i

/-- Leaf step of `_rename_exports`: for a `variable` leaf's name, walk the
export pairs in declaration order; compute the pair's register prefix
`'v{}e'.format(env[before][0])`, and on the first pair whose prefix starts
the name, rewrite with `str.replace` and stop; if no pair matches, the name
is unchanged. -/
def renameLeaf (env : TEnv) (exported : List (String × String)) (name : String) :
    Except Err String :=
  match exported with
  | [] => .ok name
  | (before, after) :: rest => do
    let i ← envRegIndex env before
    if pyStartsWith name (regPre i) then .ok (pyReplace name (regPre i) after)
    else renameLeaf env rest name

mutual

/-- Shallow embedding of `_rename_exports` (engine/transpile.py): walk the
output tree once; at each `variable` node rewrite its name via `renameLeaf`
(never descending into a `variable` node's children); descend into every
other node that has a child list.  The source mutates the tree in place;
the model rebuilds it. -/
def renameExports (env : TEnv) (exported : List (String × String)) (node : Node) :
    Except Err Node :=
  match node with
  | .mk "variable" v cs =>
    (match v with
    | some name => do
      let name ← renameLeaf env exported name
      .ok (.mk "variable" (some name) cs)
    | none => .error .typeError)
  | .mk k v none => .ok (.mk k v none)
  | .mk k v (some cs) => do
    let cs ← renameExportsList env exported cs
    .ok (.mk k v (some cs))

/-- Child traversal of `_rename_exports`. -/
def renameExportsList (env : TEnv) (exported : List (String × String)) :
    List Node → Except Err (List Node)
  | [] => .ok []
  | c :: cs => do
    let c ← renameExports env exported c
    let cs ← renameExportsList env exported cs
    .ok (c :: cs)

end

/-- Shallow embedding of `transpile_yovec` (engine/transpile.py): run the
statement loop from the empty environment and register index `0`, wrap the
emitted lines into a `program` node, and apply the export-renaming pass. -/
def transpileYovec (program : Node) : Except Err Node :=
  match program.children with
  | none => .error .typeError
  | some ls => do
    let (env, _, children, exported) ← transpileStmts TEnv.empty 0 ls
    renameExports env exported (.mk "program" none (some children))

mutual

/-- Shallow embedding of `_transpile_vexpr` of the draft transpiler
(engine/yovec/transpile.py).  Kinds differ from the main transpiler
(`premap`, `postmap`, `vecunary`, `vecbinary`), and the `vecunary` branch
takes its operand from `children[1]` while folding the ops of
`children[:-1]` over it in listed order.  The fallback raises
`ValueError('unknown kind for vexpr: ...')` — except that, as in the main
module, the nexpr fallback formats the undefined name `vexpr`. -/
def yvVexpr (env : TEnv) (vexpr : Node) : Except Err (TEnv × SimpleVector) :=
  match vexpr with
  | .mk "premap" _ (some (op :: n :: v :: _)) => do
      let (env, sn) ← yvNexpr env n
      let (env, sv) ← yvVexpr env v
      .ok (env, sv.premap op.kind sn)
  | .mk "premap" _ _ => .error .indexError
  | .mk "postmap" _ (some (n :: op :: v :: _)) => do
      let (env, sn) ← yvNexpr env n
      let (env, sv) ← yvVexpr env v
      .ok (env, sv.postmap sn op.kind)
  | .mk "postmap" _ _ => .error .indexError
  | .mk "vecunary" _ (some (c0 :: c1 :: rest)) => do
      let (env, sv) ← yvVexpr env c1
      .ok (env, ((c0 :: c1 :: rest).dropLast).foldl (fun s op => s.vecunary op.kind) sv)
  | .mk "vecunary" _ _ => .error .indexError
  | .mk "vecbinary" _ (some (c0 :: rest)) => do
      let (env, lsv) ← yvVexpr env c0
      yvVecBinList env lsv rest
  | .mk "vecbinary" _ _ => .error .indexError
  | .mk "variable" _ (some (c0 :: _)) =>
      (match c0.value with
      | some ident =>
        match env.lookup ident with
        | none => .error .keyError
        | some .mark => .error .typeError
        | some (.vecBind _ sv) => .ok (env, sv)
      | none => .error .typeError)
  | .mk "variable" _ _ => .error .indexError
  | .mk "vector" _ (some cs) => do
      let (env, sns) ← yvVecElems env cs
      .ok (env, ⟨sns⟩)
  | .mk "vector" _ none => .error .typeError
  | .mk k _ _ => .error (.valueError ("unknown kind for vexpr: " ++ k))

/-- Loop of the draft `vecbinary` branch. -/
def yvVecBinList (env : TEnv) (lsv : SimpleVector) (l : List Node) :
    Except Err (TEnv × SimpleVector) :=
  match l with
  | op :: rsv :: rest => do
      let (env, r) ← yvVexpr env rsv
      let lsv ← lsv.vecbinary op.kind r
      yvVecBinList env lsv rest
  | _ => .ok (env, lsv)

/-- Loop of the draft `vector` branch. -/
def yvVecElems (env : TEnv) (l : List Node) : Except Err (TEnv × List SimpleNumber) :=
  match l with
  | [] => .ok (env, [])
  | n :: rest => do
      let (env, sn) ← yvNexpr env n
      let (env, sns) ← yvVecElems env rest
      .ok (env, sn :: sns)

/-- Shallow embedding of `_transpile_nexpr` of the draft transpiler
(engine/yovec/transpile.py).  The `unary` branch takes its operand from
`children[1]` and folds `children[:-1]` in listed order.  The `dot` and
`len` branches return a bare value where every caller unpacks an
`(env, value)` pair, so a successful evaluation of those branches ends in
the caller's `TypeError`; the `dot` branch still evaluates `lsv.dot(rsv)`
first, so a `ShapeMismatch` `YovecError` takes precedence.  The fallback
formats the undefined name `vexpr` (a `NameError`), as in the main
module. -/
def yvNexpr (env : TEnv) (nexpr : Node) : Except Err (TEnv × SimpleNumber) :=
  match nexpr with
  | .mk "unary" _ (some (c0 :: c1 :: rest)) => do
      let (env, sn) ← yvNexpr env c1
      .ok (env, ((c0 :: c1 :: rest).dropLast).foldl (fun s op => s.unary op.kind) sn)
  | .mk "unary" _ _ => .error .indexError
  | .mk "binary" _ (some (c0 :: rest)) => do
      let (env, lsn) ← yvNexpr env c0
      yvNumBinList env lsn rest
  | .mk "binary" _ _ => .error .indexError
  | .mk "reduce" _ (some (op :: v :: _)) => do
      let (env, sv) ← yvVexpr env v
      let sn ← sv.reduce op.kind
      .ok (env, sn)
  | .mk "reduce" _ _ => .error .indexError
  | .mk "dot" _ (some (a :: b :: _)) => do
      let (env, lsv) ← yvVexpr env a
      let (_, rsv) ← yvVexpr env b
      let _ ← lsv.dot rsv
      .error .typeError
  | .mk "dot" _ _ => .error .indexError
  | .mk "len" _ (some (a :: _)) => do
      let (_, _) ← yvVexpr env a
      .error .typeError
  | .mk "len" _ _ => .error .indexError
  | .mk "external" _ (some (c0 :: _)) =>
      (match c0.value with
      | some v => .ok (env, .external v)
      | none => .error .typeError)
  | .mk "external" _ _ => .error .indexError
  | .mk "number" _ (some (c0 :: _)) =>
      (match c0.value with
      | some v =>
        match pyInt? v with
        | some n => .ok (env, .num (.intL n))
        | none => .ok (env, .num (.floatL v))
      | none => .error .typeError)
  | .mk "number" _ _ => .error .indexError
  | .mk _ _ _ => .error (.nameError "vexpr")

/-- Loop of the draft `binary` branch. -/
def yvNumBinList (env : TEnv) (lsn : SimpleNumber) (l : List Node) :
    Except Err (TEnv × SimpleNumber) :=
  match l with
  | op :: rsn :: rest => do
      let (env, r) ← yvNexpr env rsn
      yvNumBinList env (lsn.binary op.kind r) rest
  | _ => .ok (env, lsn)

end

/-- Shallow embedding of the draft `_transpile_import`
(engine/yovec/transpile.py): no `try`, so a `KeyError` from `update`
propagates unchanged. -/
def yvImport (env : TEnv) (importNode : Node) : Except Err TEnv := do
  let ident ← importNode.ident2
  env.update ident .mark

/-- Shallow embedding of the draft `_transpile_export`
(engine/yovec/transpile.py): only checks that the identifier is bound
(`_ = env[ident]`); a missing binding propagates the bare `KeyError`. -/
def yvExport (env : TEnv) (exportNode : Node) : Except Err Unit := do
  let ident ← exportNode.ident2
  match env.lookup ident with
  | none => .error .keyError
  | some _ => .ok ()

/-- Shallow embedding of the draft `_transpile_let`
(engine/yovec/transpile.py): like `_transpile_vec_let` but for kind `let`
and without a `try` around `update`. -/
def yvLet (env : TEnv) (index : Nat) (letNode : Node) :
    Except Err (TEnv × Nat × Node) :=
  match letNode with
  | .mk _ _ (some (c0 :: c1 :: _)) => do
    let ident ← c0.ident1
    let (env, sv) ← yvVexpr env c1
    let (assignments, sv) := sv.assign index
    let env ← env.update ident (.vecBind index sv)
    let multi := Node.mk "multi" none (some assignments)
    let line := Node.mk "line" none (some [multi])
    .ok (env, index + 1, line)
  | _ => .error .indexError

/-- Statement loop of the draft `transpile` (engine/yovec/transpile.py):
dispatches only `import`, `export` and `let`; any other statement kind —
including `comment` — raises
`ValueError('unknown kind for child of line: ...')`. -/
def yvStmts (env : TEnv) (index : Nat) : List Node → Except Err (TEnv × Nat × List Node)
  | [] => .ok (env, index, [])
  | line :: rest => do
    let child ← stmtOfLine line
    if child.kind == "import" then do
      let env ← yvImport env child
      yvStmts env index rest
    else if child.kind == "export" then do
      let _ ← yvExport env child
      yvStmts env index rest
    else if child.kind == "let" then do
      let (env, index, outLine) ← yvLet env index child
      let (env, index, lines) ← yvStmts env index rest
      .ok (env, index, outLine :: lines)
    else
      .error (.valueError ("unknown kind for child of line: " ++ child.kind))

/-- Shallow embedding of the draft `transpile` (engine/yovec/transpile.py):
no export-rename pass and no comment handling. -/
def yvTranspile (program : Node) : Except Err Node :=
  match program.children with
  | none => .error .typeError
  | some ls => do
    let (_, _, children) ← yvStmts TEnv.empty 0 ls
    .ok (.mk "program" none (some children))

/-- Modelled from the spec: `engine/number.py`'s `Number` payload stored in
numeric bindings is a symbolic scalar value (spec §3). -/
abbrev Number := SimpleNumber

/-- Modelled from the spec: `engine/vector.py`'s `Vector` payload stored in
vector bindings is a symbolic vector value (spec §3). -/
abbrev Vector := SimpleVector

/-- Modelled from the spec: `engine/matrix.py`'s `Matrix` payload is a
row-major sequence of symbolic vectors (spec §3/§4.3).  (Named `YMatrix`
here only because `Matrix` is taken by the ambient mathematical library.) -/
structure YMatrix where
  rows : List SimpleVector

/-- Binding kind, standing in for the Python classes `NumVar` / `VecVar` /
`MatVar` whose `type(v)` is compared by `Env.var`. -/
inductive VarKind where
  | num
  | vec
  | mat
deriving DecidableEq

/-- Environment binding (`NumVar` / `VecVar` / `MatVar` of engine/env.py):
a register index paired with the bound symbolic value. -/
inductive EnvVar where
  | numVar (index : Nat) (number : Number)
  | vecVar (index : Nat) (vector : Vector)
  | matVar (index : Nat) (matrix : YMatrix)

/-- Python `type(v)` of a binding, up to the three namedtuple classes. -/
def EnvVar.varKind : EnvVar → VarKind
  | .numVar _ _ => .num
  | .vecVar _ _ => .vec
  | .matVar _ _ => .mat

/-- Rendering of a binding class for the `TypeMismatch` message (the Python
message interpolates the class object; the exact rendering is not observable
by any claim). -/
def VarKind.str : VarKind → String
  | .num => "NumVar"
  | .vec => "VecVar"
  | .mat => "MatVar"

/-- Program environment (`Env` of engine/env.py): an identifier → binding
dict (`self.variables`, called `vars` here because `variables` is a Lean
keyword) and an alias → target dict (`self.aliases`), both in insertion
order.  (`Env.vars` returns a copy of the dict, and the `aliases` method is
shadowed by the instance attribute of the same name; neither affects any
claim.) -/
structure Env where
  vars : List (String × EnvVar)
  aliases : List (String × String)

/-- Fresh environment (`Env.__init__`). -/
def Env.empty : Env := ⟨[], []⟩

/-- Shallow embedding of `Env.var`: look a variable up, failing with
`YovecError('undefined variable: ...')` when absent, and — when an expected
class is given — with a type-mismatch `YovecError` when the stored binding
has a different class. -/
def Env.var (env : Env) (ident : String) (expect : Option VarKind) : Except Err EnvVar :=
  match env.vars.lookup ident with
  | none => .error (.yovec ("undefined variable: " ++ ident))
  | some v =>
    match expect with
    | none => .ok v
    | some k =>
      if v.varKind = k then .ok v
      else .error (.yovec ("expected variable to have type " ++ k.str ++ ", but got " ++ v.varKind.str))

/-- Shallow embedding of `Env.set_num`: reject a rebinding with
`YovecError('cannot redefine existing variable: ...')`, otherwise return a
new environment extended with the binding (the source deep-copies the whole
environment before inserting, so the receiver is never mutated; the model
expresses the same copy-on-write contract as a functional update). -/
def Env.set_num (env : Env) (ident : String) (index : Nat) (num : Number) : Except Err Env :=
  if (env.vars.lookup ident).isSome then
    .error (.yovec ("cannot redefine existing variable: " ++ ident))
  else .ok { env with vars := env.vars ++ [(ident, .numVar index num)] }

/-- Shallow embedding of `Env.set_vec` (same pattern as `set_num`). -/
def Env.set_vec (env : Env) (ident : String) (index : Nat) (vec : Vector) : Except Err Env :=
  if (env.vars.lookup ident).isSome then
    .error (.yovec ("cannot redefine existing variable: " ++ ident))
  else .ok { env with vars := env.vars ++ [(ident, .vecVar index vec)] }

/-- Shallow embedding of `Env.set_mat` (same pattern as `set_num`). -/
def Env.set_mat (env : Env) (ident : String) (index : Nat) (mat : YMatrix) : Except Err Env :=
  if (env.vars.lookup ident).isSome then
    .error (.yovec ("cannot redefine existing variable: " ++ ident))
  else .ok { env with vars := env.vars ++ [(ident, .matVar index mat)] }

/-- Shallow embedding of `Env.alias`: look an alias up, failing with
`YovecError('undefined alias: ...')` when absent. -/
def Env.alias (env : Env) (ident : String) : Except Err String :=
  match env.aliases.lookup ident with
  | none => .error (.yovec ("undefined alias: " ++ ident))
  | some t => .ok t

/-- Upper-case alphabet (`string.ascii_uppercase`). -/
def asciiUppercase : String := "ABCDEFGHIJKLMNOPQRSTUVWXYZ"

/-- Python `==` between a set of characters (`set(alias)`) and a
one-character string drawn from `set(ascii_uppercase + '_')`: operands of
different types, never equal. -/
def pySetEqChar (_ : List Char) (_ : Char) : Bool := false

/-- Python condition `set(alias) in set(ascii_uppercase + '_')` from
`Env.set_alias`, exactly as written in the source: membership of the SET of
`alias`'s characters in a set whose elements are single-character strings.
Each membership comparison is `pySetEqChar`, so the condition is false for
every alias — the export-style guard it was meant to implement (presumably
`set(alias) <= set(ascii_uppercase + '_')`) never fires. -/
def setAliasExportCheck (aliasName : String) : Bool :=
  (asciiUppercase ++ "_").data.any (pySetEqChar aliasName.data.dedup)

/-- Shallow embedding of `Env.set_alias`: reject an alias rebinding, then a
conflicting target, then (dead, see `setAliasExportCheck`) an export-style
alias naming no variable; otherwise return a new environment extended with
the alias. -/
def Env.set_alias (env : Env) (aliasName target : String) : Except Err Env :=
  if (env.aliases.lookup aliasName).isSome then
    .error (.yovec ("cannot redefine existing alias: " ++ aliasName))
  else if (env.aliases.map Prod.snd).contains target then
    .error (.yovec ("conflicting alias target: " ++ target))
  else if setAliasExportCheck aliasName && !(env.vars.lookup aliasName).isSome then
    .error (.yovec ("cannot export undefined variable: " ++ aliasName))
  else .ok { env with aliases := env.aliases ++ [(aliasName, target)] }

/-- Lower-case alphabet (`string.ascii_lowercase`). -/
def asciiLowercase : List Char := "abcdefghijklmnopqrstuvwxyz".data

/-- Words over the lower-case alphabet of a given length, in the order of
`itertools.product(ascii_lowercase, repeat=n)`: lexicographic, rightmost
position varying fastest. -/
def wordsOfLen : Nat → List (List Char)
  | 0 => [[]]
  | n + 1 => asciiLowercase.flatMap (fun c => (wordsOfLen n).map (fun w => c :: w))

/-- Name pool content `[''.join(x) for x in product(ascii_lowercase, repeat=n)]`. -/
def allStrings (n : Nat) : List String :=
  (wordsOfLen n).map String.mk

/-- Name pool state (`Pool` of engine/optimize/mangle.py). -/
structure Pool where
  excluded : List String
  replaced : List (String × String)
  pool : List String
  size : Nat

/-- Fresh pool (`Pool.__init__`). -/
def Pool.init (excluded : List String) : Pool :=
  ⟨excluded, [], [], 1⟩

/-- Shallow embedding of `Pool.gen`: refill the pool with every name of the
current size class (and advance the size) when it is empty, then pop the
LAST name of the pool.  (The defaults of `getLastD` are unreachable: the
popped list is non-empty in both branches.) -/
def Pool.gen (p : Pool) : String × Pool :=
  if p.pool.isEmpty then
    let pl := allStrings p.size
    (pl.getLastD "", { p with pool := pl.dropLast, size := p.size + 1 })
  else
    (p.pool.getLastD "", { p with pool := p.pool.dropLast })

/-- Names `gen` can still return in some future state: the remaining pool
plus every size class not yet generated. -/
def Pool.futureMem (p : Pool) (s : String) : Bool :=
  p.pool.contains s || decide (p.size ≤ s.length)

/-- Number of excluded names `gen` can still produce.  Each excluded draw
permanently consumes one of them, which bounds the `while True` loop of
`Pool.replace`. -/
def Pool.exclFuture (p : Pool) : Nat :=
  (p.excluded.filter p.futureMem).length

/-- Loop of `Pool.replace` (`while True: replacement = self.gen(); ...`).
The fuel argument only bounds the iteration count; names drawn from a
well-formed pool are pairwise distinct, so at most `exclFuture` draws can
land in the excluded set and the fuel passed by `Pool.replace` is proved
sufficient (`Pool.replaceAux_isSome`). -/
def Pool.replaceAux (name : String) : Nat → Pool → Option (String × Pool)
  | 0, _ => none
  | fuel + 1, p =>
    let (r, p') := p.gen
    if p'.excluded.contains r then Pool.replaceAux name fuel p'
    else some (r, { p' with replaced := p'.replaced ++ [(name, r)] })

/-- Shallow embedding of `Pool.replace`: an excluded name passes through
unchanged; an already-replaced name reuses its memoized replacement; any
other name draws fresh names until one outside the excluded set appears,
records it, and returns it. -/
def Pool.replace (p : Pool) (name : String) : Option (String × Pool) :=
  if p.excluded.contains name then some (name, p)
  else
    match p.replaced.lookup name with
    | some r => some (r, p)
    | none => Pool.replaceAux name (p.exclFuture + 1) p

/-- Loop of `mangle_names` over the found `variable` nodes' names, in
document order: `for var in variables: var.value = pool.replace(var.value)`. -/
def mangleRun (p : Pool) : List String → Option (List String × Pool)
  | [] => some ([], p)
  | n :: ns => do
    let (r, p) ← p.replace n
    let (rs, p) ← mangleRun p ns
    some (r :: rs, p)

mutual

/-- Modelled from the spec: `Node.find` of `engine/node.py` collects every
node matching the predicate, in pre-order (first-encounter document
order). -/
def Node.find (pr : Node → Bool) (n : Node) : List Node :=
  (if pr n then [n] else []) ++
  (match n with
   | .mk _ _ none => []
   | .mk _ _ (some cs) => Node.findList pr cs)

/-- Child traversal of `Node.find`. -/
def Node.findList (pr : Node → Bool) : List Node → List Node
  | [] => []
  | c :: cs => Node.find pr c ++ Node.findList pr cs

end

mutual

/-- Tree pass of `mangle_names`: replace the value of every `variable` node
in pre-order — the same order in which `find` collects them — threading the
pool.  The source finds the nodes first and then mutates each in place;
since replacement only depends on first-encounter order, the single rebuild
walk performs the identical update.  (A `variable` node with no literal
value would make Python pass `None` to `replace`; output trees always carry
names, and the model substitutes the empty string.) -/
def mangleWalk (pool : Pool) (n : Node) : Option (Node × Pool) :=
  match n with
  | .mk "variable" v cs => do
    let (r, pool) ← pool.replace (v.getD "")
    match cs with
    | none => some (.mk "variable" (some r) none, pool)
    | some children => do
      let (children, pool) ← mangleWalkList pool children
      some (.mk "variable" (some r) (some children), pool)
  | .mk k v none => some (.mk k v none, pool)
  | .mk k v (some cs) => do
    let (cs, pool) ← mangleWalkList pool cs
    some (.mk k v (some cs), pool)

/-- Child traversal of `mangleWalk`. -/
def mangleWalkList (pool : Pool) : List Node → Option (List Node × Pool)
  | [] => some ([], pool)
  | c :: cs => do
    let (c, pool) ← mangleWalk pool c
    let (cs, pool) ← mangleWalkList pool cs
    some (c :: cs, pool)

end

/-- Shallow embedding of `mangle_names` (engine/optimize/mangle.py): clone
the program, build a pool excluding the imported and exported names, and
replace every `variable` node's name in document order.  (The source's
`assert program.kind == 'program'` entry guard concerns only the call
protocol and is not modelled.) -/
def mangleNames (program : Node) (imported exported : List String) : Option Node :=
  (mangleWalk (Pool.init (imported ++ exported)) program).map Prod.fst

/-- Left-hand identifier of an output assignment statement (the `variable`
leaf the `assign` realization places first). -/
def Node.assignLhs? : Node → Option String
  | .mk "assignment" _ (some (.mk "variable" v _ :: _)) => v
  | _ => none

/-- Test whether a program line wraps a `vec_let` statement. -/
def isVecLetLine (line : Node) : Bool :=
  match line.children with
  | some (c :: _) => c.kind == "vec_let"
  | _ => false

/-- Test that every assignment of an output line is addressed at register
index `i`: the `k`-th statement of the line's `multi` block assigns the
scalar slot `v{i}e{k}`. -/
def lineRegIndex (line : Node) (i : Nat) : Bool :=
  match line with
  | .mk "line" _ (some [.mk "multi" _ (some assigns)]) =>
    assigns.enum.all (fun q => q.2.assignLhs? == some (regName i q.1))
  | _ => false

/-- Identifier carrier node: a node whose first child is a leaf holding the
name, as read by `ident1` (and, one level up, by `ident2`). -/
def leafIdent (s : String) : Node :=
  .mk "ident" none (some [.mk "name" (some s) none])

/-- Number literal expression node. -/
def numNode (s : String) : Node :=
  .mk "number" none (some [.mk "lit" (some s) none])

/-- Vector literal expression node. -/
def vecNode (es : List Node) : Node :=
  .mk "vector" none (some es)

/-- Program line wrapping a `vec_let` statement. -/
def letLine (ident : String) (e : Node) : Node :=
  .mk "line" none (some [.mk "vec_let" none (some [leafIdent ident, e])])

/-- Program line wrapping an `import` statement. -/
def importLine (s : String) : Node :=
  .mk "line" none (some [.mk "import" none (some [leafIdent s])])

/-- Program line wrapping an `export` statement. -/
def exportLine (b a : String) : Node :=
  .mk "line" none (some [.mk "export" none (some [leafIdent b, leafIdent a])])

/-- Program line wrapping a `comment` statement. -/
def commentLine : Node :=
  .mk "line" none (some [.mk "comment" none none])

/-- Program node over a list of lines. -/
def progNode (ls : List Node) : Node :=
  .mk "program" none (some ls)

/-- Concrete demonstration program: a width-2 let, a comment, a width-1 let
and an export. -/
def demoProg : Node :=
  progNode [letLine "x" (vecNode [numNode "1", numNode "2"]), commentLine,
            letLine "y" (vecNode [numNode "3"]), exportLine "y" "OUT"]

/-- Output of `transpile_yovec` on `demoProg`. -/
def demoOut : Node :=
  match transpileYovec demoProg with
  | .ok v => v
  | .error _ => .mk "error" none none

/-- Concrete program whose two exports share the after-name `OUT`. -/
def conflictProg : Node :=
  progNode [letLine "a" (vecNode [numNode "1"]), letLine "b" (vecNode [numNode "2"]),
            exportLine "a" "OUT", exportLine "b" "OUT"]

/-- Concrete program consisting of a single comment statement. -/
def commentProg : Node :=
  progNode [commentLine]

/-- Names of the `variable` nodes of a tree, in the document order in which
`mangle_names` collects and rewrites them. -/
def varNames (n : Node) : List String :=
  (Node.find (fun m => m.kind == "variable") n).map (fun m => m.value.getD "")

/-- Well-formedness of the pool list: names in it are pairwise distinct and
all of the size class most recently generated. -/
structure PoolWF (p : Pool) : Prop where
  nodup : p.pool.Nodup
  len : ∀ s ∈ p.pool, s.length + 1 = p.size

/-- Invariant of a `Pool` reachable from `Pool.init`: the pool list is
well-formed, the memo table has pairwise-distinct keys and values, neither
keys nor values meet the excluded set, and no recorded value can ever be
generated again. -/
structure PoolInv (p : Pool) : Prop where
  wf : PoolWF p
  keys_nodup : (p.replaced.map Prod.fst).Nodup
  vals_nodup : (p.replaced.map Prod.snd).Nodup
  keys_not_excl : ∀ pr ∈ p.replaced, p.excluded.contains pr.1 = false
  vals_not_excl : ∀ pr ∈ p.replaced, p.excluded.contains pr.2 = false
  vals_not_future : ∀ pr ∈ p.replaced, p.futureMem pr.2 = false

/-- Twenty-seven pairwise-distinct identifiers, enough to exhaust the
one-letter size class of the name pool and reach into the two-letter
class. -/
def names27 : List String :=
  ["x01", "x02", "x03", "x04", "x05", "x06", "x07", "x08", "x09",
   "x10", "x11", "x12", "x13", "x14", "x15", "x16", "x17", "x18",
   "x19", "x20", "x21", "x22", "x23", "x24", "x25", "x26", "x27"]

/-- Replacements the pool hands out for twenty-seven fresh names: the whole
one-letter class in reverse lexicographic order, then the last two-letter
name. -/
def res27 : List String :=
  ["z", "y", "x", "w", "v", "u", "t", "s", "r", "q", "p", "o", "n",
   "m", "l", "k", "j", "i", "h", "g", "f", "e", "d", "c", "b", "a", "zz"]

/-- Concrete output-shaped tree with three `variable` leaves, two of them
sharing a name. -/
def mangleDemoTree : Node :=
  .mk "multi" none (some [.mk "variable" (some "v0e0") none,
    .mk "variable" (some "v1e0") none, .mk "variable" (some "v0e0") none])

/-- Result of the mangling loop on `mangleDemoTree`'s variable names with
`A` imported and `OUT` exported. -/
def mangleDemoRes : List String × Pool :=
  (mangleRun (Pool.init (["A"] ++ ["OUT"])) (varNames mangleDemoTree)).getD
    ([], Pool.init [])

/-! ## Theorems -/

/-- C4.  The export-style guard of `Env.set_alias` is dead code: the Python
condition `set(alias) in set(ascii_uppercase + '_')` tests whether the SET
of the alias's characters equals one of the single-character strings of the
right-hand set, which never holds, so an all-uppercase-and-underscore alias
that names no declared variable is recorded rather than rejected with the
`ExportOfUndefinedVariable` error the claim (and the error message present
in the source) calls for.  Evaluated at the failing input: alias `FOO`,
target `out`, empty environment. -/
theorem c4_export_guard_dead :
    Env.set_alias Env.empty "FOO" "out" = .ok ⟨[], [("FOO", "out")]⟩ ∧
    (∀ aliasName : String, setAliasExportCheck aliasName = false) := by
  exact ⟨rfl, fun _ => rfl⟩

/-- C8.  Unknown-kind dispatch: a statement of unknown kind and a vexpr of
unknown kind raise the intended `AssertionError`, but the nexpr dispatch
does not — its fallback formats `vexpr.kind` where the name `vexpr` is not
defined in `_transpile_nexpr`, so evaluating the message raises
`NameError: name 'vexpr' is not defined` instead of the `AssertionError`
the claim states.  Evaluated at the failing input: a node of kind `widget`
at each of the three dispatch points. -/
theorem c8_unknown_kind_dispatch :
    transpileStmts TEnv.empty 0 [Node.mk "line" none (some [Node.mk "widget" none none])] =
      .error (.assertionError "unknown kind for child: widget") ∧
    transpileVexpr TEnv.empty (Node.mk "widget" none none) =
      .error (.assertionError "unknown kind for vexpr: widget") ∧
    transpileNexpr TEnv.empty (Node.mk "widget" none none) =
      .error (.nameError "vexpr") := by
  exact ⟨rfl, rfl, rfl⟩

/-- C9, counterexample.  The draft transpiler `transpile` of
`engine/yovec/transpile.py` — one of the two code sites the claim covers —
has no `comment` branch: a program consisting of a single comment statement
is rejected with `ValueError('unknown kind for child of line: comment')`
rather than ignored, refuting the claim that a comment statement never
makes transpilation fail. -/
theorem c9_draft_rejects_comment :
    yvTranspile commentProg =
      .error (.valueError "unknown kind for child of line: comment") := rfl

/-- Processing step for a comment statement in `transpile_yovec`'s loop:
the line is skipped outright — no output line, no environment change, no
register index change — whatever the comment node carries and whatever
follows it inside the line node. -/
theorem transpileStmts_comment_cons (lk : String) (lv v : Option String)
    (cs : Option (List Node)) (more rest : List Node) (env : TEnv) (i : Nat) :
    transpileStmts env i (Node.mk lk lv (some (Node.mk "comment" v cs :: more)) :: rest) =
    transpileStmts env i rest := rfl

/-- C9, amended.  In `transpile_yovec` a top-level comment statement is
ignored: deleting it from the program leaves the whole statement loop —
environment, register index, emitted lines and export pairs — unchanged,
wherever it occurs.  (The draft `transpile` of engine/yovec/transpile.py
instead rejects comment statements, see `c9_draft_rejects_comment`.) -/
theorem c9_comment_ignored (ls1 ls2 : List Node) (lk : String) (lv v : Option String)
    (cs : Option (List Node)) (more : List Node) (env : TEnv) (i : Nat) :
    transpileStmts env i
        (ls1 ++ Node.mk lk lv (some (Node.mk "comment" v cs :: more)) :: ls2) =
    transpileStmts env i (ls1 ++ ls2) := by
  induction ls1 generalizing env i with
  | nil => simpa using transpileStmts_comment_cons lk lv v cs more ls2 env i
  | cons l ls1 ih =>
    simp only [List.cons_append, transpileStmts]
    cases hs : stmtOfLine l with
    | error e => rfl
    | ok child =>
      show (Except.ok child >>= _) = (Except.ok child >>= _)
      simp only [bind, Except.bind]
      by_cases h1 : (child.kind == "import") = true
      · simp only [h1, if_true]
        cases transpileImport env child with
        | error e => rfl
        | ok env' => simp only [bind, Except.bind]; exact ih env' i
      · simp only [h1, if_false, Bool.false_eq_true]
        by_cases h2 : (child.kind == "export") = true
        · simp only [h2, if_true]
          cases transpileExport env child with
          | error e => rfl
          | ok pr =>
            simp only [bind, Except.bind, List.append_eq]
            rw [ih pr.1 i]
        · simp only [h2, if_false, Bool.false_eq_true]
          by_cases h3 : (child.kind == "vec_let") = true
          · simp only [h3, if_true]
            cases transpileVecLet env i child with
            | error e => rfl
            | ok r =>
              simp only [bind, Except.bind, List.append_eq]
              rw [ih r.1 r.2.1]
          · simp only [h3, if_false, Bool.false_eq_true]
            by_cases h4 : (child.kind == "comment") = true
            · simp only [h4, if_true]; exact ih env i
            · simp only [h4, if_false, Bool.false_eq_true]

/-- C5, counterexample.  Two exports targeting the same after-name do not
fail in the transpiler: `_transpile_export` checks only that the
before-name is bound and that the same before-name was not exported twice —
it performs no conflicting-target check and never consults `set_alias` — so
the program `let a = [1]; let b = [2]; export a as OUT; export b as OUT`
transpiles successfully, refuting the claim that the transpiler's export
statement enforces the `ConflictingAliasTarget` rule. -/
theorem c5_conflicting_targets_accepted :
    (transpileYovec conflictProg).isOk = true := rfl

/-- Key of `List.lookup` unaffected by appending a differently-keyed
entry. -/
theorem lookup_append_single {α : Type} (l : List (String × α)) (k q : String) (v : α)
    (h : q ≠ k) : (l ++ [(k, v)]).lookup q = l.lookup q := by
  induction l with
  | nil =>
    simp only [List.nil_append, List.lookup]
    cases hq : (q == k) with
    | true => exact absurd (eq_of_beq hq) h
    | false => rfl
  | cons a t ih =>
    cases a with
    | mk ak av =>
      simp only [List.cons_append, List.lookup]
      cases hq : (q == ak) <;> simp [ih]

/-- C5, amended.  Exporting a never-bound identifier fails
(`_transpile_export` raises the `ExportOfUndefinedVariable`-kind
`YovecError`), and recording a second, differently-named alias whose target
equals an already-recorded alias target fails with the
`ConflictingAliasTarget`-kind `YovecError` in `Env.set_alias`; the
transpiler's export statement, however, enforces only the
undefined-variable rule and performs no conflicting-target check
(see `c5_conflicting_targets_accepted`). -/
theorem c5_export_rules (env : TEnv) (before after k : String) (lv : Option String)
    (rest : List Node) (eenv : Env) (aliasName target : String)
    (hb : env.lookup before = none)
    (ha : eenv.aliases.lookup aliasName = none)
    (ht : (eenv.aliases.map Prod.snd).contains target = true) :
    transpileExport env (.mk k lv (some (leafIdent before :: leafIdent after :: rest))) =
      .error (.yovec ("failed to export variable: variable not found: " ++ before)) ∧
    eenv.set_alias aliasName target =
      .error (.yovec ("conflicting alias target: " ++ target)) := by
  constructor
  · simp [transpileExport, leafIdent, Node.ident1, Node.value, hb, bind, Except.bind]
  · unfold Env.set_alias
    rw [ha, ht]
    simp

/-- C5, witness: concrete instantiation of `c5_export_rules`. -/
theorem c5_export_rules_witness :
    TEnv.empty.lookup "a" = none ∧
    (Env.mk [] [("X", "OUT")]).aliases.lookup "Y" = none ∧
    ((Env.mk [] [("X", "OUT")]).aliases.map Prod.snd).contains "OUT" = true ∧
    (transpileExport TEnv.empty
        (.mk "export" none (some (leafIdent "a" :: leafIdent "b" :: []))) =
      .error (.yovec ("failed to export variable: variable not found: " ++ "a")) ∧
    (Env.mk [] [("X", "OUT")]).set_alias "Y" "OUT" =
      .error (.yovec ("conflicting alias target: " ++ "OUT"))) :=
  ⟨rfl, rfl, rfl,
   c5_export_rules TEnv.empty "a" "b" "export" none [] (Env.mk [] [("X", "OUT")])
     "Y" "OUT" rfl rfl rfl⟩

/-- C6.  Every binding operation of `Env` is pure: on success it returns a
new environment equal to the receiver extended with exactly the added
binding (the source deep-copies the receiver before inserting, which the
embedding captures as a functional update — the receiver value is never
modified, so references to it keep observing the pre-update state), and
lookups of any other identifier in the new environment agree with the
receiver. -/
theorem c6_bindings_pure (env : Env) (ident x al tg : String) (i : Nat)
    (n : Number) (v : Vector) (m : YMatrix)
    (hfresh : env.vars.lookup ident = none)
    (halias : env.aliases.lookup al = none)
    (hconf : (env.aliases.map Prod.snd).contains tg = false)
    (hx : x ≠ ident) :
    env.set_num ident i n = .ok { env with vars := env.vars ++ [(ident, .numVar i n)] } ∧
    env.set_vec ident i v = .ok { env with vars := env.vars ++ [(ident, .vecVar i v)] } ∧
    env.set_mat ident i m = .ok { env with vars := env.vars ++ [(ident, .matVar i m)] } ∧
    env.set_alias al tg = .ok { env with aliases := env.aliases ++ [(al, tg)] } ∧
    ({ env with vars := env.vars ++ [(ident, .numVar i n)] } : Env).var x none =
      env.var x none := by
  refine ⟨?_, ?_, ?_, ?_, ?_⟩
  · simp [Env.set_num, hfresh]
  · simp [Env.set_vec, hfresh]
  · simp [Env.set_mat, hfresh]
  · unfold Env.set_alias
    rw [halias, hconf]
    have hc : setAliasExportCheck al = false := rfl
    simp [hc]
  · simp [Env.var, lookup_append_single env.vars ident x (.numVar i n) hx]

/-- C6, witness: concrete instantiation of `c6_bindings_pure` at the empty
environment. -/
theorem c6_bindings_pure_witness :
    Env.empty.vars.lookup "a" = none ∧
    Env.empty.aliases.lookup "A" = none ∧
    (Env.empty.aliases.map Prod.snd).contains "T" = false ∧
    ("b" : String) ≠ "a" ∧
    (Env.empty.set_num "a" 0 (.num (.intL 0)) =
        .ok { Env.empty with vars := Env.empty.vars ++ [("a", .numVar 0 (.num (.intL 0)))] } ∧
      Env.empty.set_vec "a" 0 ⟨[]⟩ =
        .ok { Env.empty with vars := Env.empty.vars ++ [("a", .vecVar 0 ⟨[]⟩)] } ∧
      Env.empty.set_mat "a" 0 ⟨[]⟩ =
        .ok { Env.empty with vars := Env.empty.vars ++ [("a", .matVar 0 ⟨[]⟩)] } ∧
      Env.empty.set_alias "A" "T" =
        .ok { Env.empty with aliases := Env.empty.aliases ++ [("A", "T")] } ∧
      ({ Env.empty with vars := Env.empty.vars ++ [("a", .numVar 0 (.num (.intL 0)))] } : Env).var
          "b" none = Env.empty.var "b" none) :=
  ⟨rfl, rfl, rfl, by decide,
   c6_bindings_pure Env.empty "a" "b" "A" "T" 0 (.num (.intL 0)) ⟨[]⟩ ⟨[]⟩
     rfl rfl rfl (by decide)⟩

/-- C7.  Rebinding an already-bound identifier fails with the
`Redefinition`-kind `YovecError` in each of `set_num` / `set_vec` /
`set_mat` (no new environment is produced, modelling the abort), and
looking up an unbound identifier with `Env.var` fails with the
`UndefinedVariable`-kind `YovecError`. -/
theorem c7_redefinition_undefined (env : Env) (ident x : String) (i : Nat)
    (n : Number) (v : Vector) (m : YMatrix)
    (hbound : (env.vars.lookup ident).isSome = true)
    (hunbound : env.vars.lookup x = none) :
    env.set_num ident i n = .error (.yovec ("cannot redefine existing variable: " ++ ident)) ∧
    env.set_vec ident i v = .error (.yovec ("cannot redefine existing variable: " ++ ident)) ∧
    env.set_mat ident i m = .error (.yovec ("cannot redefine existing variable: " ++ ident)) ∧
    env.var x none = .error (.yovec ("undefined variable: " ++ x)) := by
  refine ⟨?_, ?_, ?_, ?_⟩
  · simp [Env.set_num, hbound]
  · simp [Env.set_vec, hbound]
  · simp [Env.set_mat, hbound]
  · simp [Env.var, hunbound]

/-- C7, witness: concrete instantiation of `c7_redefinition_undefined` at a
one-binding environment. -/
theorem c7_redefinition_undefined_witness :
    ((Env.mk [("a", .numVar 0 (.num (.intL 0)))] []).vars.lookup "a").isSome = true ∧
    (Env.mk [("a", .numVar 0 (.num (.intL 0)))] []).vars.lookup "b" = none ∧
    ((Env.mk [("a", .numVar 0 (.num (.intL 0)))] []).set_num "a" 1 (.num (.intL 7)) =
        .error (.yovec ("cannot redefine existing variable: " ++ "a")) ∧
      (Env.mk [("a", .numVar 0 (.num (.intL 0)))] []).set_vec "a" 1 ⟨[]⟩ =
        .error (.yovec ("cannot redefine existing variable: " ++ "a")) ∧
      (Env.mk [("a", .numVar 0 (.num (.intL 0)))] []).set_mat "a" 1 ⟨[]⟩ =
        .error (.yovec ("cannot redefine existing variable: " ++ "a")) ∧
      (Env.mk [("a", .numVar 0 (.num (.intL 0)))] []).var "b" none =
        .error (.yovec ("undefined variable: " ++ "b"))) :=
  ⟨rfl, rfl,
   c7_redefinition_undefined (Env.mk [("a", .numVar 0 (.num (.intL 0)))] []) "a" "b" 1
     (.num (.intL 7)) ⟨[]⟩ ⟨[]⟩ rfl rfl⟩

/-- Assignments realized by `assign(index)` all address register `index`:
the `k`-th statement's left-hand identifier is `v{index}e{k}`. -/
theorem assign_all_lhs (sv : SimpleVector) (i : Nat) :
    ((sv.assign i).1.enum.all fun q => q.2.assignLhs? == some (regName i q.1)) = true := by
  rw [List.all_eq_true]
  intro q hq
  rw [List.mem_iff_getElem] at hq
  obtain ⟨m, hm, rfl⟩ := hq
  simp [SimpleVector.assign, List.getElem_enum, Node.assignLhs?]

/-- Statement-kind observer of a program line agrees with the dispatched
child. -/
theorem isVecLetLine_eq (l child : Node) (hs : stmtOfLine l = .ok child) :
    isVecLetLine l = (child.kind == "vec_let") := by
  cases l with
  | mk k v cs =>
    cases cs with
    | none => simp [stmtOfLine, Node.children] at hs
    | some lst =>
      cases lst with
      | nil => simp [stmtOfLine, Node.children] at hs
      | cons c t =>
        simp only [stmtOfLine, Node.children, Except.ok.injEq] at hs
        subst hs
        simp [isVecLetLine, Node.children]

/-- Successful lowering of one `vec_let`: the register index advances by
exactly one and every emitted assignment addresses the incoming index. -/
theorem transpileVecLet_spec (env : TEnv) (i : Nat) (stmt : Node)
    (env' : TEnv) (i' : Nat) (line : Node)
    (h : transpileVecLet env i stmt = .ok (env', i', line)) :
    i' = i + 1 ∧ lineRegIndex line i = true := by
  cases stmt with
  | mk k v cs =>
    cases cs with
    | none => simp [transpileVecLet] at h
    | some lst =>
      match lst with
      | [] => simp [transpileVecLet] at h
      | [c0] => simp [transpileVecLet] at h
      | c0 :: c1 :: rest =>
        rw [transpileVecLet] at h
        cases hid : c0.ident1 with
        | error e => rw [hid] at h; exact absurd h (by simp [bind, Except.bind])
        | ok ident =>
          rw [hid] at h
          simp only [bind, Except.bind] at h
          cases hve : transpileVexpr env c1 with
          | error e => rw [hve] at h; exact absurd h (by simp)
          | ok r =>
            rw [hve] at h
            obtain ⟨env1, sv⟩ := r
            cases hup : env1.update ident (.vecBind i (sv.assign i).2) with
            | error e => simp [hup] at h
            | ok env2 =>
              simp only [hup] at h
              injection h with h
              injection h with henv h
              injection h with hidx hline
              refine ⟨hidx.symm, ?_⟩
              rw [← hline]
              simp only [lineRegIndex]
              exact assign_all_lhs sv i

/-- Successful run of the statement loop: the final register index advances
by exactly the number of emitted lines, one line is emitted per `vec_let`
statement (import, export and comment statements emit nothing and leave
the index unchanged), and the `m`-th emitted line is addressed at register
index `i + m`. -/
theorem transpileStmts_spec (ls : List Node) (env : TEnv) (i : Nat)
    (env' : TEnv) (i' : Nat) (lines : List Node) (exps : List (String × String))
    (h : transpileStmts env i ls = .ok (env', i', lines, exps)) :
    i' = i + lines.length ∧
    lines.length = (ls.filter isVecLetLine).length ∧
    ∀ m (hm : m < lines.length), lineRegIndex (lines.get ⟨m, hm⟩) (i + m) = true := by
  induction ls generalizing env i env' i' lines exps with
  | nil =>
    rw [transpileStmts] at h
    injection h with h
    injection h with henv h
    injection h with hidx h
    injection h with hlines hexps
    subst hidx; subst hlines
    exact ⟨rfl, rfl, fun m hm => absurd hm (by simp)⟩
  | cons l rest ih =>
    rw [transpileStmts] at h
    cases hs : stmtOfLine l with
    | error e => rw [hs] at h; exact absurd h (by simp [bind, Except.bind])
    | ok child =>
      rw [hs] at h
      simp only [bind, Except.bind] at h
      have hfl : isVecLetLine l = (child.kind == "vec_let") := isVecLetLine_eq l child hs
      by_cases h1 : (child.kind == "import") = true
      · rw [if_pos h1] at h
        cases him : transpileImport env child with
        | error e => rw [him] at h; exact absurd h (by simp)
        | ok env1 =>
          rw [him] at h
          have hvl : isVecLetLine l = false := by
            rw [hfl, eq_of_beq h1]; rfl
          obtain ⟨hi, hc, hr⟩ := ih env1 i env' i' lines exps h
          exact ⟨hi, by rw [List.filter_cons_of_neg (by simp [hvl]), ← hc], hr⟩
      · rw [if_neg h1] at h
        by_cases h2 : (child.kind == "export") = true
        · rw [if_pos h2] at h
          cases hex : transpileExport env child with
          | error e => rw [hex] at h; exact absurd h (by simp)
          | ok r =>
            rw [hex] at h
            obtain ⟨env1, pr⟩ := r
            simp only [bind, Except.bind] at h
            cases hrest : transpileStmts env1 i rest with
            | error e => rw [hrest] at h; exact absurd h (by simp)
            | ok r2 =>
              rw [hrest] at h
              obtain ⟨env2, i2, lines2, exps2⟩ := r2
              injection h with h
              injection h with henv h
              injection h with hidx h
              injection h with hlines hexps
              subst hidx; subst hlines
              have hvl : isVecLetLine l = false := by
                rw [hfl, eq_of_beq h2]; rfl
              obtain ⟨hi, hc, hr⟩ := ih env1 i env2 i2 lines2 exps2 hrest
              exact ⟨hi, by rw [List.filter_cons_of_neg (by simp [hvl]), ← hc], hr⟩
        · rw [if_neg h2] at h
          by_cases h3 : (child.kind == "vec_let") = true
          · rw [if_pos h3] at h
            cases hvel : transpileVecLet env i child with
            | error e => rw [hvel] at h; exact absurd h (by simp)
            | ok r =>
              rw [hvel] at h
              obtain ⟨env1, i1, outLine⟩ := r
              simp only [bind, Except.bind] at h
              cases hrest : transpileStmts env1 i1 rest with
              | error e => rw [hrest] at h; exact absurd h (by simp)
              | ok r2 =>
                rw [hrest] at h
                obtain ⟨env2, i2, lines2, exps2⟩ := r2
                injection h with h
                injection h with henv h
                injection h with hidx h
                injection h with hlines hexps
                subst hidx; subst hlines
                obtain ⟨hi1, hreg⟩ := transpileVecLet_spec env i child env1 i1 outLine hvel
                subst hi1
                obtain ⟨hi, hc, hr⟩ := ih env1 (i + 1) env2 i2 lines2 exps2 hrest
                have hvl : isVecLetLine l = true := by rw [hfl]; exact h3
                refine ⟨by simp [hi, Nat.add_assoc, Nat.add_comm 1], ?_, ?_⟩
                · rw [List.filter_cons_of_pos (by simp [hvl])]
                  simp [hc]
                · intro m hm
                  cases m with
                  | zero => simpa using hreg
                  | succ m' =>
                    have hm' : m' < lines2.length := by simpa using hm
                    have := hr m' hm'
                    have harith : i + (m' + 1) = i + 1 + m' := by omega
                    rw [harith]
                    simpa using this
          · rw [if_neg h3] at h
            by_cases h4 : (child.kind == "comment") = true
            · rw [if_pos h4] at h
              have hvl : isVecLetLine l = false := by
                rw [hfl, eq_of_beq h4]; rfl
              obtain ⟨hi, hc, hr⟩ := ih env i env' i' lines exps h
              exact ⟨hi, by rw [List.filter_cons_of_neg (by simp [hvl]), ← hc], hr⟩
            · rw [if_neg h4] at h
              exact absurd h (by simp)

/-- C1.  On every program that `transpile_yovec` accepts, the statement
loop assigns register indices to the `let` statements strictly increasing
from `0` in declaration order, incrementing by exactly one per `vec_let`
regardless of the width of the bound value: exactly one output line is
emitted per `vec_let`, the `m`-th emitted line's assignments all address
register `m`, and the final register index equals the number of `vec_let`
statements — so import, export and comment statements leave the index
unchanged. -/
theorem c1_register_indices (program out : Node)
    (h : transpileYovec program = .ok out) :
    ∃ env lines exps,
      transpileStmts TEnv.empty 0 (program.children.getD []) =
        .ok (env, lines.length, lines, exps) ∧
      (lines.enum.all fun q => lineRegIndex q.2 q.1) = true ∧
      lines.length = ((program.children.getD []).filter isVecLetLine).length := by
  rw [transpileYovec] at h
  cases program with
  | mk k v cs =>
    cases cs with
    | none => simp [Node.children] at h
    | some ls =>
      simp only [Node.children] at h ⊢
      simp only [bind, Except.bind] at h
      cases hts : transpileStmts TEnv.empty 0 ls with
      | error e => rw [hts] at h; exact absurd h (by simp)
      | ok r =>
        obtain ⟨env1, i1, lines1, exps1⟩ := r
        obtain ⟨hi, hc, hr⟩ := transpileStmts_spec ls TEnv.empty 0 env1 i1 lines1 exps1 hts
        refine ⟨env1, lines1, exps1, ?_, ?_, by simpa using hc⟩
        · simp only [Option.getD_some]
          rw [hts, hi]
          simp
        · rw [List.all_eq_true]
          intro q hq
          rw [List.mem_iff_getElem] at hq
          obtain ⟨m, hm, rfl⟩ := hq
          have hm' : m < lines1.length := by simpa using hm
          have := hr m hm'
          simp only [List.getElem_enum]
          simpa using this

/-- C1, witness: concrete instantiation of `c1_register_indices` on
`demoProg` (a width-2 let, a comment, a width-1 let, an export). -/
theorem c1_register_indices_witness :
    transpileYovec demoProg = .ok demoOut ∧
    (∃ env lines exps,
      transpileStmts TEnv.empty 0 (demoProg.children.getD []) =
        .ok (env, lines.length, lines, exps) ∧
      (lines.enum.all fun q => lineRegIndex q.2 q.1) = true ∧
      lines.length = ((demoProg.children.getD []).filter isVecLetLine).length) :=
  ⟨rfl, c1_register_indices demoProg demoOut rfl⟩

/-- Decimal digit characters are distinct from the letters of the register
naming scheme. -/
theorem digitChar_ne (d : Nat) : digitChar d ≠ 'v' ∧ digitChar d ≠ 'e' := by
  unfold digitChar
  split <;> exact ⟨by decide, by decide⟩

/-- Every character the decimal printer can emit satisfies any property
that all digit characters and all accumulator characters satisfy. -/
theorem natDigitsAux_mem (P : Char → Prop) (hP : ∀ d, P (digitChar d)) :
    ∀ (fuel n : Nat) (acc : List Char), (∀ c ∈ acc, P c) →
      ∀ c ∈ natDigitsAux fuel n acc, P c := by
  intro fuel
  induction fuel with
  | zero => intro n acc hacc c hc; exact hacc c hc
  | succ f ihf =>
    intro n acc hacc c hc
    rw [natDigitsAux] at hc
    by_cases hn : n < 10
    · rw [if_pos hn] at hc
      rcases List.mem_cons.mp hc with h | h
      · rw [h]; exact hP n
      · exact hacc c h
    · rw [if_neg hn] at hc
      refine ihf (n / 10) (digitChar (n % 10) :: acc) ?_ c hc
      intro c' hc'
      rcases List.mem_cons.mp hc' with h | h
      · rw [h]; exact hP (n % 10)
      · exact hacc c' h

/-- The decimal digits of a register or element index contain neither `v`
nor `e`. -/
theorem natDigits_ne (n : Nat) : ∀ c ∈ natDigits n, c ≠ 'v' ∧ c ≠ 'e' :=
  natDigitsAux_mem (fun c => c ≠ 'v' ∧ c ≠ 'e') digitChar_ne (n + 1) n []
    (fun c hc => absurd hc (List.not_mem_nil c))

/-- Replace-scan over a string free of the pattern's head character leaves
it unchanged, at any fuel. -/
theorem pyReplaceAux_no_occ (o : Char) (os new : List Char) :
    ∀ (s : List Char) (fuel : Nat), o ∉ s → pyReplaceAux (o :: os) new fuel s = s := by
  intro s
  induction s with
  | nil => intro fuel _; cases fuel <;> rfl
  | cons c cs ih =>
    intro fuel h
    have hne : o ≠ c := fun he => h (he ▸ List.mem_cons_self o cs)
    have hcs : o ∉ cs := fun hm => h (List.mem_cons_of_mem c hm)
    cases fuel with
    | zero => rfl
    | succ f =>
      rw [pyReplaceAux]
      have hpre : ((o :: os).isPrefixOf (c :: cs)) = false := by
        simp only [List.isPrefixOf]
        rw [Bool.and_eq_false_iff]
        left
        exact beq_eq_false_iff_ne.mpr hne
      rw [hpre]
      simp only [Bool.false_eq_true, if_false]
      rw [ih f hcs]

/-- Replace-scan over a string that starts with the pattern and never
contains the pattern's head character again: exactly the leading occurrence
is replaced. -/
theorem pyReplaceAux_once (o : Char) (os new t : List Char) (f : Nat)
    (ho_t : o ∉ t) :
    pyReplaceAux (o :: os) new (f + 1) ((o :: os) ++ t) = new ++ t := by
  have hpre : ((o :: os).isPrefixOf ((o :: os) ++ t)) = true := by
    rw [List.isPrefixOf_iff_prefix]
    exact List.prefix_append (o :: os) t
  rw [List.cons_append] at hpre
  rw [List.cons_append, pyReplaceAux, hpre]
  simp only [if_true]
  have hdrop : List.drop (o :: os).length (o :: (os ++ t)) = t := by
    rw [← List.cons_append]
    exact List.drop_left (o :: os) t
  rw [hdrop, pyReplaceAux_no_occ o os new t f ho_t]

/-- String append against an explicit character list. -/
theorem string_append_mk (a : String) (l : List Char) :
    a ++ String.mk l = String.mk (a.data ++ l) := by
  cases a
  rfl

/-- The scalar slot name splits as its register prefix followed by the
element digits. -/
theorem regName_split (i k : Nat) :
    (regName i k).data = (regPre i).data ++ natDigits k := by
  simp [regName, regPre]

/-- A register prefix starts its own slot names. -/
theorem pyStartsWith_regName (i k : Nat) :
    pyStartsWith (regName i k) (regPre i) = true := by
  unfold pyStartsWith
  rw [regName_split, List.isPrefixOf_iff_prefix]
  exact List.prefix_append _ _

/-- Python `replace` on a slot name rewrites the register prefix to the
after-name and keeps the element digits: the prefix begins with `v` and `v`
never recurs in the digits, so exactly the leading occurrence is
replaced. -/
theorem pyReplace_regName (i k : Nat) (after : String) :
    pyReplace (regName i k) (regPre i) after = after ++ natStr k := by
  have hv_t : 'v' ∉ natDigits k := fun hm => (natDigits_ne k 'v' hm).1 rfl
  have hdata : (regName i k).data =
      ('v' :: (natDigits i ++ ['e'])) ++ natDigits k := by
    simp [regName]
  have hpredata : (regPre i).data = 'v' :: (natDigits i ++ ['e']) := rfl
  unfold pyReplace
  rw [hpredata, hdata, List.cons_append, List.length_cons]
  have honce := pyReplaceAux_once 'v' (natDigits i ++ ['e']) after.data (natDigits k)
    ((natDigits i ++ ['e'] ++ natDigits k).length) hv_t
  rw [List.cons_append] at honce
  rw [honce, string_append_mk]
  rfl

/-- C2.  First-declared export wins: in the export-rename pass, a `variable`
leaf carrying the slot name `v{i}e{k}` is checked against the export pairs
in declaration order; the earlier pairs whose register prefixes do not
start the name are skipped, and the first pair whose before-name is bound
at register `i` rewrites the name to its after-name with the element
suffix preserved and stops — the pairs after it are never consulted
(the conclusion does not depend on `ps2`). -/
theorem c2_first_export_wins (env : TEnv) (ps1 : List (String × String)) (b a : String)
    (ps2 : List (String × String)) (i k : Nat)
    (hb : envRegIndex env b = .ok i)
    (hearlier : ∀ pr ∈ ps1, ∃ j, envRegIndex env pr.1 = .ok j ∧
        pyStartsWith (regName i k) (regPre j) = false) :
    renameLeaf env (ps1 ++ (b, a) :: ps2) (regName i k) = .ok (a ++ natStr k) := by
  induction ps1 with
  | nil =>
    simp only [List.nil_append, renameLeaf]
    rw [hb]
    simp only [bind, Except.bind]
    rw [pyStartsWith_regName]
    simp only [if_true]
    rw [pyReplace_regName]
  | cons p ps ih =>
    obtain ⟨pb, pa⟩ := p
    obtain ⟨j, hj, hfalse⟩ := hearlier (pb, pa) (List.mem_cons_self _ _)
    simp only [List.cons_append, renameLeaf]
    rw [hj]
    simp only [bind, Except.bind]
    rw [hfalse]
    simp only [Bool.false_eq_true, if_false]
    exact ih (fun pr hpr => hearlier pr (List.mem_cons_of_mem _ hpr))

/-- C2, witness: concrete instantiation of `c2_first_export_wins` with a
skipped earlier pair (register 7, prefix `v7e` does not start `v0e2`) and a
matching pair bound at register 0. -/
theorem c2_first_export_wins_witness :
    envRegIndex ⟨[("x", .vecBind 7 ⟨[]⟩), ("y", .vecBind 0 ⟨[]⟩)]⟩ "y" = .ok 0 ∧
    (∀ pr ∈ [("x", "AAA")], ∃ j,
        envRegIndex ⟨[("x", .vecBind 7 ⟨[]⟩), ("y", .vecBind 0 ⟨[]⟩)]⟩ pr.1 = .ok j ∧
        pyStartsWith (regName 0 2) (regPre j) = false) ∧
    renameLeaf ⟨[("x", .vecBind 7 ⟨[]⟩), ("y", .vecBind 0 ⟨[]⟩)]⟩
        ([("x", "AAA")] ++ ("y", "OUT") :: [("z", "BBB")]) (regName 0 2) =
      .ok ("OUT" ++ natStr 2) := by
  have hearlier : ∀ pr ∈ [(("x" : String), ("AAA" : String))], ∃ j,
      envRegIndex ⟨[("x", .vecBind 7 ⟨[]⟩), ("y", .vecBind 0 ⟨[]⟩)]⟩ pr.1 = .ok j ∧
      pyStartsWith (regName 0 2) (regPre j) = false := by
    intro pr hpr
    rcases List.mem_singleton.mp hpr with rfl
    exact ⟨7, rfl, rfl⟩
  exact ⟨rfl, hearlier,
    c2_first_export_wins ⟨[("x", .vecBind 7 ⟨[]⟩), ("y", .vecBind 0 ⟨[]⟩)]⟩
      [("x", "AAA")] "y" "OUT" [("z", "BBB")] 0 2 rfl hearlier⟩

/-- Words of the size class `n` all have length `n`. -/
theorem wordsOfLen_length (n : Nat) : ∀ w ∈ wordsOfLen n, w.length = n := by
  induction n with
  | zero => intro w hw; simp [wordsOfLen] at hw; simp [hw]
  | succ m ih =>
    intro w hw
    simp only [wordsOfLen] at hw
    rw [List.mem_flatMap] at hw
    obtain ⟨c, _, hw⟩ := hw
    rw [List.mem_map] at hw
    obtain ⟨w', hw', rfl⟩ := hw
    simp [ih w' hw']

/-- Every size class is non-empty. -/
theorem wordsOfLen_ne_nil (n : Nat) : wordsOfLen n ≠ [] := by
  induction n with
  | zero => simp [wordsOfLen]
  | succ m ih =>
    obtain ⟨w, hw⟩ := List.exists_mem_of_ne_nil _ ih
    have hmem : ('a' :: w) ∈ wordsOfLen (m + 1) := by
      simp only [wordsOfLen]
      rw [List.mem_flatMap]
      exact ⟨'a', by decide, List.mem_map.mpr ⟨w, hw, rfl⟩⟩
    exact List.ne_nil_of_mem hmem

/-- Words of a size class are pairwise distinct: `itertools.product` never
repeats a tuple. -/
theorem wordsOfLen_nodup (n : Nat) : (wordsOfLen n).Nodup := by
  induction n with
  | zero => simp [wordsOfLen]
  | succ m ih =>
    simp only [wordsOfLen]
    rw [List.nodup_flatMap]
    refine ⟨fun c _ => ih.map (fun w w' h => by injection h), ?_⟩
    have hlet : asciiLowercase.Nodup := by decide
    refine hlet.imp_of_mem ?_
    intro a b _ _ hne x hxa hxb
    rw [List.mem_map] at hxa hxb
    obtain ⟨wa, _, rfl⟩ := hxa
    obtain ⟨wb, _, hb⟩ := hxb
    injection hb with h1 h2
    exact hne (by rw [h1])

/-- Pool refill content: every name has the advertised length. -/
theorem allStrings_length (n : Nat) : ∀ s ∈ allStrings n, s.length = n := by
  intro s hs
  rw [allStrings, List.mem_map] at hs
  obtain ⟨w, hw, rfl⟩ := hs
  exact wordsOfLen_length n w hw

/-- Pool refill content is pairwise distinct. -/
theorem allStrings_nodup (n : Nat) : (allStrings n).Nodup :=
  (wordsOfLen_nodup n).map (fun a b h => by injection h)

/-- Pool refill content is non-empty. -/
theorem allStrings_ne_nil (n : Nat) : allStrings n ≠ [] := by
  rw [allStrings]
  simpa using wordsOfLen_ne_nil n

/-- Membership-free form of list `contains`. -/
theorem contains_false_of_not_mem {l : List String} {a : String} (h : a ∉ l) :
    l.contains a = false := by
  rw [Bool.eq_false_iff]
  intro hc
  exact h (List.elem_iff.mp hc)

/-- Mirror direction of `contains_false_of_not_mem`. -/
theorem not_mem_of_contains_false {l : List String} {a : String} (h : l.contains a = false) :
    a ∉ l := by
  intro hm
  have ht : l.contains a = true := List.elem_iff.mpr hm
  rw [ht] at h
  cases h

/-- Behaviour of one `gen` draw from a well-formed pool: the pool stays
well-formed, the excluded set and memo table are untouched, the drawn name
was available, is no longer available afterwards, and no unavailable name
becomes available. -/
theorem Pool.gen_spec (p : Pool) (r : String) (p' : Pool) (h : PoolWF p)
    (hg : p.gen = (r, p')) :
    PoolWF p' ∧ p'.excluded = p.excluded ∧ p'.replaced = p.replaced ∧
    p.futureMem r = true ∧ p'.futureMem r = false ∧
    (∀ s, p'.futureMem s = true → p.futureMem s = true) := by
  unfold Pool.gen at hg
  by_cases he : p.pool.isEmpty
  · rw [if_pos he] at hg
    have hne : allStrings p.size ≠ [] := allStrings_ne_nil p.size
    have hlast : (allStrings p.size).getLastD "" = (allStrings p.size).getLast hne := by
      rw [List.getLastD_eq_getLast? _ _, List.getLast?_eq_getLast _ hne, Option.getD_some]
    injection hg with hr hp'
    subst hr; subst hp'
    have hrmem : (allStrings p.size).getLast hne ∈ allStrings p.size := List.getLast_mem hne
    have hrlen : ((allStrings p.size).getLast hne).length = p.size :=
      allStrings_length p.size _ hrmem
    have hnotdrop : (allStrings p.size).getLast hne ∉ (allStrings p.size).dropLast := by
      have heq := List.dropLast_append_getLast hne
      have h2 : ((allStrings p.size).dropLast ++ [(allStrings p.size).getLast hne]).Nodup := by
        rw [heq]; exact allStrings_nodup p.size
      simp [List.nodup_append] at h2
      exact h2.2
    refine ⟨⟨?_, ?_⟩, rfl, rfl, ?_, ?_, ?_⟩
    · exact (allStrings_nodup p.size).sublist (List.dropLast_sublist _)
    · intro s hs
      have := allStrings_length p.size s (List.dropLast_subset _ hs)
      simp [this]
    · rw [Pool.futureMem, hlast, Bool.or_eq_true]
      exact Or.inr (by simp [hrlen])
    · rw [Pool.futureMem, hlast]
      rw [contains_false_of_not_mem hnotdrop]
      simp [hrlen]
    · intro s hs
      rw [Pool.futureMem, Bool.or_eq_true] at hs ⊢
      rcases hs with hs | hs
      · have hmem := List.elem_iff.mp hs
        have := allStrings_length p.size s (List.dropLast_subset _ hmem)
        exact Or.inr (by simp [this])
      · simp only [decide_eq_true_eq] at hs
        exact Or.inr (by simp; omega)
  · rw [if_neg he] at hg
    have hne : p.pool ≠ [] := by
      intro hnil
      rw [hnil] at he
      exact he rfl
    have hlast : p.pool.getLastD "" = p.pool.getLast hne := by
      rw [List.getLastD_eq_getLast? _ _, List.getLast?_eq_getLast _ hne, Option.getD_some]
    injection hg with hr hp'
    subst hr; subst hp'
    have hrmem : p.pool.getLast hne ∈ p.pool := List.getLast_mem hne
    have hrlen : (p.pool.getLast hne).length + 1 = p.size := h.len _ hrmem
    have hnotdrop : p.pool.getLast hne ∉ p.pool.dropLast := by
      have heq := List.dropLast_append_getLast hne
      have h2 : (p.pool.dropLast ++ [p.pool.getLast hne]).Nodup := by
        rw [heq]; exact h.nodup
      simp [List.nodup_append] at h2
      exact h2.2
    refine ⟨⟨?_, ?_⟩, rfl, rfl, ?_, ?_, ?_⟩
    · exact h.nodup.sublist (List.dropLast_sublist _)
    · intro s hs
      exact h.len s (List.dropLast_subset _ hs)
    · rw [Pool.futureMem, hlast, Bool.or_eq_true]
      exact Or.inl (List.elem_iff.mpr hrmem)
    · rw [Pool.futureMem, hlast]
      rw [contains_false_of_not_mem hnotdrop]
      simp
      omega
    · intro s hs
      rw [Pool.futureMem, Bool.or_eq_true] at hs ⊢
      rcases hs with hs | hs
      · exact Or.inl (List.elem_iff.mpr (List.dropLast_subset _ (List.elem_iff.mp hs)))
      · exact Or.inr hs

/-- Filtered length is monotone in the predicate. -/
theorem length_filter_mono {l : List String} {q pr : String → Bool}
    (himp : ∀ y, pr y = true → q y = true) :
    (l.filter pr).length ≤ (l.filter q).length := by
  induction l with
  | nil => simp
  | cons a t ih =>
    cases hpa : pr a
    · rw [List.filter_cons_of_neg (by simp [hpa])]
      cases hqa : q a
      · rw [List.filter_cons_of_neg (by simp [hqa])]
        exact ih
      · rw [List.filter_cons_of_pos hqa]
        exact Nat.le_succ_of_le ih
    · rw [List.filter_cons_of_pos (himp a hpa), List.filter_cons_of_pos hpa]
      simpa using ih

/-- Filtered length strictly decreases when the predicate weakens and some
member satisfying the stronger predicate stops satisfying the weaker. -/
theorem length_filter_lt {l : List String} {q pr : String → Bool} {x : String}
    (hx : x ∈ l) (hqx : q x = true) (hpx : pr x = false)
    (himp : ∀ y, pr y = true → q y = true) :
    (l.filter pr).length < (l.filter q).length := by
  induction l with
  | nil => cases hx
  | cons a t ih =>
    rcases List.mem_cons.mp hx with rfl | hxt
    · rw [List.filter_cons_of_pos hqx, List.filter_cons_of_neg (by simp [hpx])]
      have := length_filter_mono (l := t) himp
      simp only [List.length_cons]
      omega
    · cases hpa : pr a
      · rw [List.filter_cons_of_neg (by simp [hpa])]
        cases hqa : q a
        · rw [List.filter_cons_of_neg (by simp [hqa])]
          exact ih hxt
        · rw [List.filter_cons_of_pos hqa]
          have := ih hxt
          simp only [List.length_cons]
          omega
      · rw [List.filter_cons_of_pos (himp a hpa), List.filter_cons_of_pos hpa]
        simpa using ih hxt

/-- Lookup hit survives appending entries on the right. -/
theorem lookup_append_some {l l2 : List (String × String)} {k v : String}
    (h : l.lookup k = some v) : (l ++ l2).lookup k = some v := by
  induction l with
  | nil => cases h
  | cons a t ih =>
    obtain ⟨ak, av⟩ := a
    simp only [List.lookup, List.cons_append] at h ⊢
    cases hk : (k == ak)
    · rw [hk] at h; exact ih h
    · rw [hk] at h; exact h

/-- Lookup miss defers to the appended entries. -/
theorem lookup_append_none {l l2 : List (String × String)} {k : String}
    (h : l.lookup k = none) : (l ++ l2).lookup k = l2.lookup k := by
  induction l with
  | nil => rfl
  | cons a t ih =>
    obtain ⟨ak, av⟩ := a
    simp only [List.lookup, List.cons_append] at h ⊢
    cases hk : (k == ak)
    · rw [hk] at h; exact ih h
    · rw [hk] at h; cases h

/-- Lookup hit exhibits a member. -/
theorem lookup_mem {l : List (String × String)} {k v : String}
    (h : l.lookup k = some v) : (k, v) ∈ l := by
  induction l with
  | nil => cases h
  | cons a t ih =>
    obtain ⟨ak, av⟩ := a
    simp only [List.lookup] at h
    cases hk : (k == ak)
    · rw [hk] at h; exact List.mem_cons_of_mem _ (ih h)
    · rw [hk] at h
      injection h with h
      rw [eq_of_beq hk, h]
      exact List.mem_cons_self _ _

/-- Lookup miss means the key is absent. -/
theorem lookup_none_not_key {l : List (String × String)} {k : String}
    (h : l.lookup k = none) : k ∉ l.map Prod.fst := by
  induction l with
  | nil => simp
  | cons a t ih =>
    obtain ⟨ak, av⟩ := a
    simp only [List.lookup] at h
    cases hk : (k == ak)
    · rw [hk] at h
      simp only [List.map_cons, List.mem_cons]
      rintro (rfl | hm)
      · rw [BEq.refl] at hk; cases hk
      · exact ih h hm
    · rw [hk] at h; cases h

/-- Distinct keys cannot share a value in a map with pairwise-distinct
values. -/
theorem snd_nodup_inj {l : List (String × String)}
    (h : (l.map Prod.snd).Nodup) {a b v : String}
    (ha : (a, v) ∈ l) (hb : (b, v) ∈ l) : a = b := by
  induction l with
  | nil => cases ha
  | cons p t ih =>
    obtain ⟨pk, pv⟩ := p
    simp only [List.map_cons, List.nodup_cons] at h
    rcases List.mem_cons.mp ha with hae | hat
    · rcases List.mem_cons.mp hb with hbe | hbt
      · injection hae with h1 _
        injection hbe with h2 _
        rw [h1, h2]
      · injection hae with h1 h2
        exact absurd (List.mem_map.mpr ⟨(b, v), hbt, by rw [← h2]⟩) h.1
    · rcases List.mem_cons.mp hb with hbe | hbt
      · injection hbe with h1 h2
        exact absurd (List.mem_map.mpr ⟨(a, v), hat, by rw [← h2]⟩) h.1
      · exact ih h.2 hat hbt

/-- Behaviour of a successful `replace` loop run from a well-formed pool:
the drawn replacement is recorded as the last memo entry, was available at
entry, is never available again, and lies outside the excluded set. -/
theorem Pool.replaceAux_spec (name : String) :
    ∀ (fuel : Nat) (p : Pool) (r : String) (p' : Pool), PoolWF p →
    Pool.replaceAux name fuel p = some (r, p') →
    PoolWF p' ∧ p'.excluded = p.excluded ∧
    p'.replaced = p.replaced ++ [(name, r)] ∧
    p'.futureMem r = false ∧ p.futureMem r = true ∧
    (∀ s, p'.futureMem s = true → p.futureMem s = true) ∧
    p.excluded.contains r = false := by
  intro fuel
  induction fuel with
  | zero => intro p r p' _ h; cases h
  | succ f ih =>
    intro p r p' hwf h
    rw [Pool.replaceAux] at h
    cases hg : p.gen with
    | mk r0 p0 =>
      rw [hg] at h
      dsimp only at h
      obtain ⟨hwf0, hexcl0, hrep0, hfut_r0, hfut0_r0, hsub0⟩ := Pool.gen_spec p r0 p0 hwf hg
      by_cases hex : p0.excluded.contains r0 = true
      · rw [if_pos hex] at h
        obtain ⟨hwf', hexcl', hrep', hfut', hfutp, hsub, hexr⟩ := ih p0 r p' hwf0 h
        refine ⟨hwf', hexcl'.trans hexcl0, by rw [hrep', hrep0],
                hfut', hsub0 r hfutp, fun s hs => hsub0 s (hsub s hs), ?_⟩
        rw [← hexcl0]
        exact hexr
      · rw [if_neg hex] at h
        injection h with h
        injection h with hr hp'
        subst hr
        subst hp'
        refine ⟨⟨hwf0.nodup, hwf0.len⟩, hexcl0, by rw [hrep0], hfut0_r0, hfut_r0,
                fun s hs => hsub0 s hs, ?_⟩
        rw [← hexcl0]
        exact Bool.not_eq_true _ ▸ Bool.of_not_eq_true hex

/-- The fuel passed by `Pool.replace` suffices: every continuing iteration
permanently consumes a distinct excluded name that was still available, so
the loop draws a usable replacement within `exclFuture + 1` iterations. -/
theorem Pool.replaceAux_isSome (name : String) :
    ∀ (fuel : Nat) (p : Pool), PoolWF p → p.exclFuture < fuel →
    (Pool.replaceAux name fuel p).isSome = true := by
  intro fuel
  induction fuel with
  | zero => intro p _ h; omega
  | succ f ih =>
    intro p hwf hlt
    rw [Pool.replaceAux]
    cases hg : p.gen with
    | mk r0 p0 =>
      dsimp only
      obtain ⟨hwf0, hexcl0, _, hfut_r0, hfut0_r0, hsub0⟩ := Pool.gen_spec p r0 p0 hwf hg
      by_cases hex : p0.excluded.contains r0 = true
      · rw [if_pos hex]
        apply ih p0 hwf0
        have hdec : p0.exclFuture < p.exclFuture := by
          rw [Pool.exclFuture, Pool.exclFuture, hexcl0]
          refine length_filter_lt (x := r0) ?_ hfut_r0 hfut0_r0 (fun y hy => hsub0 y hy)
          refine List.elem_iff.mp ?_
          rw [← hexcl0]
          exact hex
        omega
      · rw [if_neg hex]
        rfl

/-- Full behaviour of `Pool.replace` from an invariant-preserving state:
it always succeeds, preserves the invariant and the excluded set, never
disturbs existing memo entries, passes excluded names through unchanged,
and maps any other name to a recorded replacement outside the excluded
set. -/
theorem Pool.replace_spec (p : Pool) (name : String) (hinv : PoolInv p) :
    ∃ r p', p.replace name = some (r, p') ∧ PoolInv p' ∧
      p'.excluded = p.excluded ∧
      (∀ k v, p.replaced.lookup k = some v → p'.replaced.lookup k = some v) ∧
      (p.excluded.contains name = true → r = name) ∧
      (p.excluded.contains name = false →
        p'.replaced.lookup name = some r ∧ p.excluded.contains r = false) := by
  unfold Pool.replace
  by_cases hex : p.excluded.contains name = true
  · rw [if_pos hex]
    exact ⟨name, p, rfl, hinv, rfl, fun k v h => h, fun _ => rfl,
      fun hc => by rw [hc] at hex; cases hex⟩
  · rw [if_neg hex]
    have hexf : p.excluded.contains name = false := Bool.eq_false_iff.mpr hex
    cases hmemo : p.replaced.lookup name with
    | some r =>
      refine ⟨r, p, rfl, hinv, rfl, fun k v h => h, ?_, ?_⟩
      · intro hc
        rw [hexf] at hc
        cases hc
      · intro _
        exact ⟨hmemo, hinv.vals_not_excl (name, r) (lookup_mem hmemo)⟩
    | none =>
      have hsome := Pool.replaceAux_isSome name (p.exclFuture + 1) p hinv.wf
        (Nat.lt_succ_self _)
      obtain ⟨⟨r, p''⟩, haux⟩ := Option.isSome_iff_exists.mp hsome
      obtain ⟨hwf'', hexcl'', hrep'', hfut'', hfutp, hsub, hexr⟩ :=
        Pool.replaceAux_spec name (p.exclFuture + 1) p r p'' hinv.wf haux
      have hnamekey : name ∉ p.replaced.map Prod.fst := lookup_none_not_key hmemo
      have hrnew : r ∉ p.replaced.map Prod.snd := by
        intro hm
        rw [List.mem_map] at hm
        obtain ⟨pr, hpr, hpr2⟩ := hm
        have := hinv.vals_not_future pr hpr
        rw [hpr2] at this
        rw [this] at hfutp
        cases hfutp
      have hinv'' : PoolInv p'' := by
        refine ⟨hwf'', ?_, ?_, ?_, ?_, ?_⟩
        · rw [hrep'', List.map_append, List.nodup_append]
          refine ⟨hinv.keys_nodup, List.nodup_singleton _, ?_⟩
          intro a ha hb
          rw [List.map_singleton, List.mem_singleton] at hb
          rw [hb] at ha
          exact hnamekey ha
        · rw [hrep'', List.map_append, List.nodup_append]
          refine ⟨hinv.vals_nodup, List.nodup_singleton _, ?_⟩
          intro a ha hb
          rw [List.map_singleton, List.mem_singleton] at hb
          rw [hb] at ha
          exact hrnew ha
        · intro pr hpr
          rw [hrep''] at hpr
          rw [hexcl'']
          rcases List.mem_append.mp hpr with hold | hnew
          · exact hinv.keys_not_excl pr hold
          · rw [List.mem_singleton] at hnew
            rw [hnew]
            exact hexf
        · intro pr hpr
          rw [hrep''] at hpr
          rw [hexcl'']
          rcases List.mem_append.mp hpr with hold | hnew
          · exact hinv.vals_not_excl pr hold
          · rw [List.mem_singleton] at hnew
            rw [hnew]
            exact hexr
        · intro pr hpr
          rw [hrep''] at hpr
          rcases List.mem_append.mp hpr with hold | hnew
          · cases hfv : p''.futureMem pr.2 with
            | false => rfl
            | true =>
              have := hsub pr.2 hfv
              rw [hinv.vals_not_future pr hold] at this
              cases this
          · rw [List.mem_singleton] at hnew
            rw [hnew]
            exact hfut''
      refine ⟨r, p'', haux, hinv'', hexcl'', ?_, ?_, ?_⟩
      · intro k v h
        rw [hrep'']
        exact lookup_append_some h
      · intro hc
        rw [hexf] at hc
        cases hc
      · intro _
        refine ⟨?_, hexr⟩
        rw [hrep'', lookup_append_none hmemo]
        simp [List.lookup]

/-- Behaviour of the whole mangling loop from an invariant-preserving pool:
the invariant and the excluded set are preserved, memo entries are never
disturbed, one replacement is produced per name, excluded names pass
through unchanged, and every other name's replacement is recorded in the
final memo table and lies outside the excluded set. -/
theorem mangleRun_spec :
    ∀ (names : List String) (p : Pool) (rs : List String) (p' : Pool),
    PoolInv p → mangleRun p names = some (rs, p') →
    PoolInv p' ∧ p'.excluded = p.excluded ∧
    (∀ k v, p.replaced.lookup k = some v → p'.replaced.lookup k = some v) ∧
    rs.length = names.length ∧
    (∀ m (hm : m < names.length) (hr : m < rs.length),
      (p.excluded.contains (names.get ⟨m, hm⟩) = true →
        rs.get ⟨m, hr⟩ = names.get ⟨m, hm⟩) ∧
      (p.excluded.contains (names.get ⟨m, hm⟩) = false →
        p'.replaced.lookup (names.get ⟨m, hm⟩) = some (rs.get ⟨m, hr⟩) ∧
        p.excluded.contains (rs.get ⟨m, hr⟩) = false)) := by
  intro names
  induction names with
  | nil =>
    intro p rs p' hinv h
    rw [mangleRun] at h
    injection h with h
    injection h with hrs hp'
    subst hrs; subst hp'
    exact ⟨hinv, rfl, fun k v hk => hk, rfl, fun m hm => absurd hm (by simp)⟩
  | cons n ns ih =>
    intro p rs p' hinv h
    rw [mangleRun] at h
    obtain ⟨r0, p0, hre, hinv0, hexcl0, hkeep0, hexcl_true, hexcl_false⟩ :=
      Pool.replace_spec p n hinv
    rw [hre] at h
    simp only [Option.bind_eq_bind, Option.some_bind] at h
    cases hrec : mangleRun p0 ns with
    | none => rw [hrec] at h; cases h
    | some q =>
      obtain ⟨rs1, p1⟩ := q
      rw [hrec] at h
      simp only [Option.some_bind] at h
      injection h with h
      injection h with hrs hp'
      subst hrs; subst hp'
      obtain ⟨hinv1, hexcl1, hkeep1, hlen1, hpt1⟩ := ih p0 rs1 p1 hinv0 hrec
      refine ⟨hinv1, hexcl1.trans hexcl0, fun k v hk => hkeep1 k v (hkeep0 k v hk),
        by simp [hlen1], ?_⟩
      intro m hm hr
      cases m with
      | zero =>
        constructor
        · intro hc
          simp only [List.get]
          exact hexcl_true hc
        · intro hc
          obtain ⟨hlook, hnex⟩ := hexcl_false hc
          exact ⟨hkeep1 _ _ hlook, hnex⟩
      | succ m' =>
        have hm' : m' < ns.length := by simpa using hm
        have hr' : m' < rs1.length := by simpa using hr
        have := hpt1 m' hm' hr'
        constructor
        · intro hc
          refine (this.1 ?_)
          rw [hexcl0]
          exact hc
        · intro hc
          have hc0 : p0.excluded.contains (ns.get ⟨m', hm'⟩) = false := by
            rw [hexcl0]; exact hc
          obtain ⟨hlook, hnex⟩ := this.2 hc0
          refine ⟨hlook, ?_⟩
          rw [← hexcl0]
          exact hnex

/-- C3.  `mangle_names` is injective on distinct non-excluded identifiers:
running its replacement loop over a program's `variable` names (in the
document order `find` collects them), two distinct names outside the
imported-and-exported excluded set always receive distinct replacements;
no replacement of a non-excluded name lands in the excluded set; and a
name in the excluded set passes through unchanged. -/
theorem c3_mangle_injective (program : Node) (imported exported : List String)
    (rs : List String) (p' : Pool)
    (h : mangleRun (Pool.init (imported ++ exported)) (varNames program) = some (rs, p')) :
    rs.length = (varNames program).length ∧
    (∀ m1 m2 (hm1 : m1 < (varNames program).length) (hm2 : m2 < (varNames program).length)
        (hr1 : m1 < rs.length) (hr2 : m2 < rs.length),
      (varNames program).get ⟨m1, hm1⟩ ∉ imported ++ exported →
      (varNames program).get ⟨m2, hm2⟩ ∉ imported ++ exported →
      (varNames program).get ⟨m1, hm1⟩ ≠ (varNames program).get ⟨m2, hm2⟩ →
      rs.get ⟨m1, hr1⟩ ≠ rs.get ⟨m2, hr2⟩) ∧
    (∀ m (hm : m < (varNames program).length) (hr : m < rs.length),
      ((varNames program).get ⟨m, hm⟩ ∉ imported ++ exported →
        rs.get ⟨m, hr⟩ ∉ imported ++ exported) ∧
      ((varNames program).get ⟨m, hm⟩ ∈ imported ++ exported →
        rs.get ⟨m, hr⟩ = (varNames program).get ⟨m, hm⟩)) := by
  have hinv : PoolInv (Pool.init (imported ++ exported)) := by
    refine ⟨⟨List.nodup_nil, ?_⟩, List.nodup_nil, List.nodup_nil, ?_, ?_, ?_⟩ <;>
      simp [Pool.init]
  obtain ⟨hinv', hexcl', hkeep, hlen, hpt⟩ :=
    mangleRun_spec (varNames program) (Pool.init (imported ++ exported)) rs p' hinv h
  refine ⟨hlen, ?_, ?_⟩
  · intro m1 m2 hm1 hm2 hr1 hr2 hn1 hn2 hne heq
    have hc1 : (imported ++ exported).contains ((varNames program).get ⟨m1, hm1⟩) = false :=
      contains_false_of_not_mem hn1
    have hc2 : (imported ++ exported).contains ((varNames program).get ⟨m2, hm2⟩) = false :=
      contains_false_of_not_mem hn2
    obtain ⟨hl1, _⟩ := (hpt m1 hm1 hr1).2 hc1
    obtain ⟨hl2, _⟩ := (hpt m2 hm2 hr2).2 hc2
    have e1 := lookup_mem hl1
    have e2 := lookup_mem hl2
    rw [heq] at e1
    exact hne (snd_nodup_inj hinv'.vals_nodup e1 e2)
  · intro m hm hr
    constructor
    · intro hn
      obtain ⟨_, hnex⟩ := (hpt m hm hr).2 (contains_false_of_not_mem hn)
      exact not_mem_of_contains_false hnex
    · intro hmem
      exact (hpt m hm hr).1 (List.elem_iff.mpr hmem)

/-- C3, witness: concrete instantiation of `c3_mangle_injective` on
`mangleDemoTree` (three variable leaves, two sharing a name) with `A`
imported and `OUT` exported. -/
theorem c3_mangle_injective_witness :
    mangleRun (Pool.init (["A"] ++ ["OUT"])) (varNames mangleDemoTree) =
      some (mangleDemoRes.1, mangleDemoRes.2) ∧
    (mangleDemoRes.1.length = (varNames mangleDemoTree).length ∧
    (∀ m1 m2 (hm1 : m1 < (varNames mangleDemoTree).length)
        (hm2 : m2 < (varNames mangleDemoTree).length)
        (hr1 : m1 < mangleDemoRes.1.length) (hr2 : m2 < mangleDemoRes.1.length),
      (varNames mangleDemoTree).get ⟨m1, hm1⟩ ∉ ["A"] ++ ["OUT"] →
      (varNames mangleDemoTree).get ⟨m2, hm2⟩ ∉ ["A"] ++ ["OUT"] →
      (varNames mangleDemoTree).get ⟨m1, hm1⟩ ≠ (varNames mangleDemoTree).get ⟨m2, hm2⟩ →
      mangleDemoRes.1.get ⟨m1, hr1⟩ ≠ mangleDemoRes.1.get ⟨m2, hr2⟩) ∧
    (∀ m (hm : m < (varNames mangleDemoTree).length) (hr : m < mangleDemoRes.1.length),
      ((varNames mangleDemoTree).get ⟨m, hm⟩ ∉ ["A"] ++ ["OUT"] →
        mangleDemoRes.1.get ⟨m, hr⟩ ∉ ["A"] ++ ["OUT"]) ∧
      ((varNames mangleDemoTree).get ⟨m, hm⟩ ∈ ["A"] ++ ["OUT"] →
        mangleDemoRes.1.get ⟨m, hr⟩ = (varNames mangleDemoTree).get ⟨m, hm⟩))) :=
  ⟨rfl, c3_mangle_injective mangleDemoTree ["A"] ["OUT"]
    mangleDemoRes.1 mangleDemoRes.2 rfl⟩

set_option maxRecDepth 10000 in
/-- C10.  The name pool hands replacements out in reverse lexicographic
order within each length class: with an empty excluded set the first
replacement — for any first identifier — is `z`, and a run over 27 fresh
identifiers yields the whole one-letter class `z, y, ..., a` before the
first two-letter name `zz`. -/
theorem c10_pool_reverse_lex :
    (∀ name : String, ((Pool.init []).replace name).map Prod.fst = some "z") ∧
    (mangleRun (Pool.init []) names27).map Prod.fst = some res27 :=
  ⟨fun _ => rfl, rfl⟩
